import Mathlib

/-!
FormalModel of the node-streaming core of `bevy_terrain` (`src/systems.rs`).

The per-terrain collections (`Nodes`) are hash maps in the source; here they
are association lists over `Nat` keys with overwrite-insert and key-removal,
which is faithful for the nodup-key states the system produces. Fallible
operations (`unwrap` in the source) are modelled with `Except String`.
-/

/-- Association-list lookup: models `HashMap::get` / `LruCache` key lookup. -/
def alookup {α : Type} (k : Nat) : List (Nat × α) → Option α
  | [] => none
  | (k', v) :: rest => if k' = k then some v else alookup k rest

/-- Remove every binding of key `k`: models `HashMap::remove` / `LruCache::pop`
(on nodup-key lists exactly one binding is removed). -/
def aremove {α : Type} (k : Nat) (l : List (Nat × α)) : List (Nat × α) :=
  l.filter (fun p => p.1 != k)

/-- Overwrite-insert: models `HashMap::insert` / `LruCache::put`. -/
def ainsert {α : Type} (k : Nat) (v : α) (l : List (Nat × α)) : List (Nat × α) :=
  (k, v) :: aremove k l

/-- The keys of an association list. -/
def akeys {α : Type} (l : List (Nat × α)) : List Nat :=
  l.map Prod.fst

/-- Set-style insert: models `HashSet::insert`. -/
def sinsert (k : Nat) (l : List Nat) : List Nat :=
  if k ∈ l then l else k :: l

/-- Per-node load bookkeeping: a boolean finished flag (`LoadStatus`). -/
structure LoadStatus where
  finished : Bool
deriving DecidableEq, Repr

/-- Payload of one node: its id, the asset handles it depends on, and the
atlas slot it occupies while active. -/
structure NodeData where
  id : Nat
  handles : List Nat
  atlasId : Option Nat
deriving DecidableEq, Repr

/-- Per-frame diff produced by quadtree traversal and consumed by
`update_nodes`. -/
structure TreeUpdate where
  activated_nodes : List Nat
  nodes_to_activate : List Nat
  nodes_to_deactivate : List Nat
deriving DecidableEq, Repr

/-- The per-terrain lifecycle collections (struct `Nodes`). -/
structure Nodes where
  handle_mapping : List (Nat × Nat)
  load_statuses : List (Nat × LoadStatus)
  loading_nodes : List (Nat × NodeData)
  inactive_nodes : List (Nat × NodeData)
  active_nodes : List (Nat × NodeData)
deriving DecidableEq, Repr

/-- Modelled from the spec: `NodeAtlas` lives in `node_atlas.rs`, which is not
in the source tree. Per the spec it is a fixed-capacity slot pool with a
free-list allocation strategy; we keep the current free list. -/
structure NodeAtlas where
  available_ids : List Nat
deriving DecidableEq, Repr

/-- Slot-update commands appended to the outbound `QuadtreeUpdate` queue. -/
inductive AtlasCmd where
  | assign (slot : Nat) (node : Nat)
  | free (slot : Nat)
deriving DecidableEq, Repr

/-- Asset events as observed by `update_load_status`; only `created`
("asset ready") events are acted upon. -/
inductive AssetEvent where
  | created (handle : Nat)
  | modified (handle : Nat)
  | removed (handle : Nat)
deriving DecidableEq, Repr

/-- Modelled from the spec: `NodeData::load` lives in `quadtree.rs`, which is
not in the source tree. Per the spec (§4.2 step 2, §6) it begins an async
load: creates a new unfinished `LoadStatus` for the node, registers each of
the node's asset handles in `handle_mapping`, and returns the in-flight
`NodeData` placeholder (no atlas slot yet). The environment `assets` gives
the asset handles each node id depends on. -/
def NodeData.load (assets : Nat → List Nat) (id : Nat)
    (load_statuses : List (Nat × LoadStatus)) (handle_mapping : List (Nat × Nat)) :
    NodeData × List (Nat × LoadStatus) × List (Nat × Nat) :=
  (⟨id, assets id, none⟩,
   ainsert id ⟨false⟩ load_statuses,
   (assets id).foldl (fun m h => ainsert h id m) handle_mapping)

/-- Modelled from the spec: `NodeAtlas::add_node` lives in `node_atlas.rs`,
which is not in the source tree. Per the spec admission takes a slot from the
free list, assigns it to the node and emits a slot-update command; capacity
exhaustion is recoverable (§7), not fatal, and the observed logic assumes it
never happens, so an exhausted atlas leaves the node without a slot. -/
def NodeAtlas.add_node (atlas : NodeAtlas) (node : NodeData) (updates : List AtlasCmd) :
    NodeAtlas × NodeData × List AtlasCmd :=
  match atlas.available_ids with
  | [] => (atlas, { node with atlasId := none }, updates)
  | s :: rest => (⟨rest⟩, { node with atlasId := some s }, updates ++ [AtlasCmd.assign s node.id])

/-- Modelled from the spec: `NodeAtlas::remove_node` lives in `node_atlas.rs`,
which is not in the source tree. Per the spec deactivation returns the node's
slot to the free list and emits a slot-free command; the node no longer holds
a slot afterwards. -/
def NodeAtlas.remove_node (atlas : NodeAtlas) (node : NodeData) (updates : List AtlasCmd) :
    NodeAtlas × NodeData × List AtlasCmd :=
  match node.atlasId with
  | none => (atlas, node, updates)
  | some s => (⟨s :: atlas.available_ids⟩, { node with atlasId := none }, updates ++ [AtlasCmd.free s])

/-- Step 2 of `update_nodes`: drain `nodes_to_activate`; a cache hit in
`inactive_nodes` is popped and queued for activation, a miss issues a load
(new status, handle registrations, in-flight entry in `loading_nodes`). -/
def drainActivate (assets : Nat → List Nat) :
    List Nat → Nodes → List NodeData → Nodes × List NodeData
  | [], ns, pending => (ns, pending)
  | id :: rest, ns, pending =>
    match alookup id ns.inactive_nodes with
    | some node =>
      drainActivate assets rest
        { ns with inactive_nodes := aremove id ns.inactive_nodes } (pending ++ [node])
    | none =>
      let r := NodeData.load assets id ns.load_statuses ns.handle_mapping
      drainActivate assets rest
        { ns with loading_nodes := ainsert id r.1 ns.loading_nodes,
                  load_statuses := r.2.1, handle_mapping := r.2.2 } pending

/-- Step 3 of `update_nodes`: sweep `load_statuses`, removing every finished
entry together with its `loading_nodes` entry (whose absence is fatal) and
queueing the retrieved `NodeData` for activation. -/
def sweepStatuses :
    List (Nat × LoadStatus) → List (Nat × NodeData) → List NodeData →
    Except String (List (Nat × LoadStatus) × List (Nat × NodeData) × List NodeData)
  | [], loading, pending => .ok ([], loading, pending)
  | (id, st) :: rest, loading, pending =>
    if st.finished then
      match alookup id loading with
      | some node => sweepStatuses rest (aremove id loading) (pending ++ [node])
      | none => .error "finished load status has no loading node"
    else
      (sweepStatuses rest loading pending).map (fun r => ((id, st) :: r.1, r.2.1, r.2.2))

/-- Step 4 of `update_nodes`: drain `nodes_to_deactivate`; each id must be
active (absence is fatal), its slot is returned to the atlas and the node is
moved into `inactive_nodes`. -/
def drainDeactivate :
    List Nat → Nodes → NodeAtlas → List AtlasCmd →
    Except String (Nodes × NodeAtlas × List AtlasCmd)
  | [], ns, atlas, q => .ok (ns, atlas, q)
  | id :: rest, ns, atlas, q =>
    match alookup id ns.active_nodes with
    | none => .error "deactivated node is not active"
    | some node =>
      let r := atlas.remove_node node q
      drainDeactivate rest
        { ns with active_nodes := aremove id ns.active_nodes,
                  inactive_nodes := ainsert id r.2.1 ns.inactive_nodes } r.1 r.2.2

/-- Step 5 of `update_nodes`: admit every queued node — request a slot from
the atlas, record the id in `activated_nodes`, insert into `active_nodes`. -/
def admitPending :
    List NodeData → TreeUpdate → Nodes → NodeAtlas → List AtlasCmd →
    TreeUpdate × Nodes × NodeAtlas × List AtlasCmd
  | [], tu, ns, atlas, q => (tu, ns, atlas, q)
  | node :: rest, tu, ns, atlas, q =>
    let r := atlas.add_node node q
    admitPending rest
      { tu with activated_nodes := sinsert r.2.1.id tu.activated_nodes }
      { ns with active_nodes := ainsert r.2.1.id r.2.1 ns.active_nodes } r.1 r.2.2

/-- The `update_nodes` system for one terrain instance, translated from
`src/systems.rs`: (1) clear `activated_nodes`, (2) drain `nodes_to_activate`
resolving each id from the inactive cache or issuing a load, (3) sweep
`load_statuses` for finished loads, (4) drain `nodes_to_deactivate` freeing
atlas slots, (5) admit the queued activations. -/
def update_nodes (assets : Nat → List Nat) (tu : TreeUpdate) (ns : Nodes)
    (atlas : NodeAtlas) (q : List AtlasCmd) :
    Except String (TreeUpdate × Nodes × NodeAtlas × List AtlasCmd) :=
  let tu1 : TreeUpdate := { tu with activated_nodes := [] }
  let d := drainActivate assets tu1.nodes_to_activate ns []
  let tu2 : TreeUpdate := { tu1 with nodes_to_activate := [] }
  match sweepStatuses d.1.load_statuses d.1.loading_nodes d.2 with
  | .error e => .error e
  | .ok s =>
    let ns3 : Nodes := { d.1 with load_statuses := s.1, loading_nodes := s.2.1 }
    let tu3 : TreeUpdate := { tu2 with nodes_to_deactivate := [] }
    match drainDeactivate tu2.nodes_to_deactivate ns3 atlas q with
    | .error e => .error e
    | .ok r => .ok (admitPending s.2.2 tu3 r.1 r.2.1 r.2.2)

/-- `update_load_status` routing of one asset-ready notification across the
terrain instances: the first terrain whose `handle_mapping` contains the
handle consumes it — the mapping is removed, the mapped node's status is
marked finished (its absence is fatal) — and the search stops there. -/
def applyCreated (h : Nat) : List Nodes → Except String (List Nodes)
  | [] => .ok []
  | ns :: rest =>
    match alookup h ns.handle_mapping with
    | some id =>
      match alookup id ns.load_statuses with
      | some _ =>
        .ok ({ ns with handle_mapping := aremove h ns.handle_mapping,
                       load_statuses := ainsert id ⟨true⟩ ns.load_statuses } :: rest)
      | none => .error "mapped handle has no load status"
    | none => (applyCreated h rest).map (fun ts => ns :: ts)

/-- The `update_load_status` system: process the frame's asset events in
order; only `created` events are routed, the rest are ignored. -/
def update_load_status (events : List AssetEvent) (ts : List Nodes) :
    Except String (List Nodes) :=
  events.foldl
    (fun acc e =>
      match acc with
      | .error err => .error err
      | .ok ts' =>
        match e with
        | .created h => applyCreated h ts'
        | .modified _ => .ok ts'
        | .removed _ => .ok ts')
    (.ok ts)

/-- Run `update_nodes` over a sequence of frames (one `TreeUpdate` each),
threading `Nodes`, the atlas and the outbound queue. -/
def runFrames (assets : Nat → List Nat) :
    List TreeUpdate → Nodes → NodeAtlas → List AtlasCmd →
    Except String (Nodes × NodeAtlas × List AtlasCmd)
  | [], ns, atlas, q => .ok (ns, atlas, q)
  | tu :: rest, ns, atlas, q =>
    match update_nodes assets tu ns atlas q with
    | .error e => .error e
    | .ok r => runFrames assets rest r.2.1 r.2.2.1 r.2.2.2

/-! ### Association-list lemmas -/

theorem aremove_cons {α : Type} (k : Nat) (p : Nat × α) (l : List (Nat × α)) :
    aremove k (p :: l) = if p.1 = k then aremove k l else p :: aremove k l := by
  by_cases h : p.1 = k <;> simp [aremove, List.filter_cons, h]

theorem alookup_aremove_self {α : Type} (k : Nat) (l : List (Nat × α)) :
    alookup k (aremove k l) = none := by
  induction l with
  | nil => rfl
  | cons p rest ih =>
    rw [aremove_cons]
    by_cases h : p.1 = k
    · simpa [h] using ih
    · simpa [alookup, h] using ih

theorem alookup_aremove_ne {α : Type} {j k : Nat} (h : j ≠ k) (l : List (Nat × α)) :
    alookup j (aremove k l) = alookup j l := by
  induction l with
  | nil => rfl
  | cons p rest ih =>
    rw [aremove_cons]
    by_cases hk : p.1 = k
    · have hpj : p.1 ≠ j := by rw [hk]; exact fun hc => h hc.symm
      rw [if_pos hk, ih]
      simp [alookup, hpj]
    · rw [if_neg hk]
      by_cases hj : p.1 = j <;> simp [alookup, hj, ih]

theorem alookup_ainsert_self {α : Type} (k : Nat) (v : α) (l : List (Nat × α)) :
    alookup k (ainsert k v l) = some v := by
  simp [ainsert, alookup]

theorem alookup_ainsert_ne {α : Type} {j k : Nat} (h : j ≠ k) (v : α) (l : List (Nat × α)) :
    alookup j (ainsert k v l) = alookup j l := by
  have : k ≠ j := fun hc => h hc.symm
  simp [ainsert, alookup, this, alookup_aremove_ne h]

theorem alookup_isSome_iff_mem_akeys {α : Type} {j : Nat} {l : List (Nat × α)} :
    (alookup j l).isSome ↔ j ∈ akeys l := by
  induction l with
  | nil => simp [alookup, akeys]
  | cons p rest ih =>
    by_cases h : p.1 = j
    · simp [alookup, akeys, h]
    · have hne : j ≠ p.1 := fun hc => h hc.symm
      simp only [alookup, h, if_false, akeys, List.map_cons, List.mem_cons]
      rw [show (rest.map Prod.fst) = akeys rest from rfl, ih]
      constructor
      · exact Or.inr
      · rintro (hc | hm)
        · exact (hne hc).elim
        · exact hm

theorem alookup_eq_none_iff_not_mem_akeys {α : Type} {j : Nat} {l : List (Nat × α)} :
    alookup j l = none ↔ j ∉ akeys l := by
  rw [← alookup_isSome_iff_mem_akeys, Option.not_isSome_iff_eq_none]

theorem mem_akeys_aremove {α : Type} {j k : Nat} {l : List (Nat × α)} :
    j ∈ akeys (aremove k l) ↔ j ∈ akeys l ∧ j ≠ k := by
  constructor
  · intro hm
    rcases List.mem_map.mp hm with ⟨p, hp, hpj⟩
    rcases (List.mem_filter.mp hp) with ⟨hpl, hne⟩
    refine ⟨List.mem_map.mpr ⟨p, hpl, hpj⟩, ?_⟩
    subst hpj
    simpa using hne
  · rintro ⟨hm, hne⟩
    rcases List.mem_map.mp hm with ⟨p, hp, hpj⟩
    refine List.mem_map.mpr ⟨p, List.mem_filter.mpr ⟨hp, ?_⟩, hpj⟩
    subst hpj
    simpa using hne

theorem mem_akeys_ainsert {α : Type} {j k : Nat} (v : α) (l : List (Nat × α)) :
    j ∈ akeys (ainsert k v l) ↔ j = k ∨ j ∈ akeys l := by
  by_cases h : j = k
  · subst h
    simp [ainsert, akeys]
  · simp only [ainsert, akeys, List.map_cons, List.mem_cons]
    rw [show ((aremove k l).map Prod.fst) = akeys (aremove k l) from rfl,
        show (l.map Prod.fst) = akeys l from rfl]
    constructor
    · rintro (hc | hm)
      · exact (h hc).elim
      · exact Or.inr (mem_akeys_aremove.mp hm).1
    · rintro (hc | hm)
      · exact (h hc).elim
      · exact Or.inr (mem_akeys_aremove.mpr ⟨hm, h⟩)

theorem nodup_akeys_aremove {α : Type} (k : Nat) {l : List (Nat × α)}
    (h : (akeys l).Nodup) : (akeys (aremove k l)).Nodup := by
  induction l with
  | nil => simp [aremove, akeys]
  | cons p rest ih =>
    rw [aremove_cons]
    simp only [akeys, List.map_cons, List.nodup_cons] at h
    by_cases hk : p.1 = k
    · simp only [hk]
      exact ih h.2
    · simp only [hk, if_false, akeys, List.map_cons, List.nodup_cons]
      refine ⟨fun hc => h.1 ?_, ih h.2⟩
      exact (mem_akeys_aremove.mp hc).1

theorem nodup_akeys_ainsert {α : Type} (k : Nat) (v : α) {l : List (Nat × α)}
    (h : (akeys l).Nodup) : (akeys (ainsert k v l)).Nodup := by
  simp only [ainsert, akeys, List.map_cons, List.nodup_cons]
  exact ⟨fun hc => absurd rfl (mem_akeys_aremove.mp hc).2, nodup_akeys_aremove k h⟩

theorem length_aremove_le {α : Type} (k : Nat) (l : List (Nat × α)) :
    (aremove k l).length ≤ l.length :=
  List.length_filter_le _ _

theorem length_ainsert_le {α : Type} (k : Nat) (v : α) (l : List (Nat × α)) :
    (ainsert k v l).length ≤ l.length + 1 := by
  simpa [ainsert] using Nat.succ_le_succ (length_aremove_le k l)

theorem mem_sinsert {j k : Nat} {l : List Nat} :
    j ∈ sinsert k l ↔ j = k ∨ j ∈ l := by
  by_cases h : k ∈ l
  · simp only [sinsert, if_pos h]
    constructor
    · exact Or.inr
    · rintro (rfl | hm)
      · exact h
      · exact hm
  · simp [sinsert, if_neg h]

theorem mem_of_mem_aremove {α : Type} {p : Nat × α} {k : Nat} {l : List (Nat × α)}
    (h : p ∈ aremove k l) : p ∈ l :=
  (List.mem_filter.mp h).1

/-! ### Invariants, traversal contract, reachability -/

/-- `true` for `.ok`, `false` for `.error`: result of a fallible system run. -/
def exceptOk {ε α : Type} : Except ε α → Bool
  | .ok _ => true
  | .error _ => false

/-- Number of finished entries in a status table. -/
def countFinished (l : List (Nat × LoadStatus)) : Nat :=
  (l.filter (fun p => p.2.finished)).length

/-- The sweep of `load_statuses` succeeds: every finished status (processed
sequentially) has a matching `loading_nodes` entry. -/
def sweepOkB : List (Nat × LoadStatus) → List (Nat × NodeData) → Bool
  | [], _ => true
  | (id, st) :: rest, loading =>
    if st.finished then
      (alookup id loading).isSome && sweepOkB rest (aremove id loading)
    else
      sweepOkB rest loading

/-- The deactivation drain succeeds: every drained id (processed
sequentially) is present in `active_nodes` at its turn. -/
def deactOkB : List Nat → List (Nat × NodeData) → Bool
  | [], _ => true
  | id :: rest, act => (alookup id act).isSome && deactOkB rest (aremove id act)

/-- All five collections have nodup key lists. -/
def NodupKeys (ns : Nodes) : Prop :=
  (akeys ns.handle_mapping).Nodup ∧ (akeys ns.load_statuses).Nodup ∧
  (akeys ns.loading_nodes).Nodup ∧ (akeys ns.inactive_nodes).Nodup ∧
  (akeys ns.active_nodes).Nodup

/-- `loading_nodes`, `inactive_nodes` and `active_nodes` have pairwise
disjoint key sets (each NodeData is owned by exactly one of the three). -/
def DisjointOwn (ns : Nodes) : Prop :=
  (∀ id ∈ akeys ns.loading_nodes, id ∉ akeys ns.inactive_nodes) ∧
  (∀ id ∈ akeys ns.loading_nodes, id ∉ akeys ns.active_nodes) ∧
  (∀ id ∈ akeys ns.inactive_nodes, id ∉ akeys ns.active_nodes)

/-- `load_statuses` and `loading_nodes` track the same set of in-flight ids. -/
def StatusSync (ns : Nodes) : Prop :=
  (∀ id ∈ akeys ns.load_statuses, id ∈ akeys ns.loading_nodes) ∧
  (∀ id ∈ akeys ns.loading_nodes, id ∈ akeys ns.load_statuses)

/-- Every stored `NodeData` carries the id it is keyed under. -/
def KeysMatch (ns : Nodes) : Prop :=
  (∀ p ∈ ns.loading_nodes, (Prod.snd p).id = p.1) ∧
  (∀ p ∈ ns.inactive_nodes, (Prod.snd p).id = p.1) ∧
  (∀ p ∈ ns.active_nodes, (Prod.snd p).id = p.1)

/-- The full per-terrain well-formedness invariant. -/
def WfState (ns : Nodes) : Prop :=
  NodupKeys ns ∧ DisjointOwn ns ∧ StatusSync ns ∧ KeysMatch ns

/-- Modelled from the spec: the quadtree traversal producing `TreeUpdate`
lives in `quadtree.rs`, which is not in the source tree. Per §4.1 the diffs
are sets (no duplicates), `nodes_to_activate` holds only newly required ids
(hence not currently active) and, per §5, "deactivation only targets
`active_nodes`". -/
def ValidUpdate (tu : TreeUpdate) (ns : Nodes) : Prop :=
  tu.nodes_to_activate.Nodup ∧ tu.nodes_to_deactivate.Nodup ∧
  (∀ id ∈ tu.nodes_to_activate, id ∉ akeys ns.active_nodes) ∧
  (∀ id ∈ tu.nodes_to_deactivate, id ∈ akeys ns.active_nodes)

/-- States of one terrain instance produced by the system itself: the empty
initial state, frames of `update_nodes` driven by traversal-shaped tree
updates, and asset-ready routing by `update_load_status`. -/
inductive Reachable (assets : Nat → List Nat) : Nodes → NodeAtlas → Prop where
  | init (freeSlots : List Nat) :
      Reachable assets ⟨[], [], [], [], []⟩ ⟨freeSlots⟩
  | frame {ns : Nodes} {atlas : NodeAtlas}
      {tu : TreeUpdate} {q : List AtlasCmd}
      {r : TreeUpdate × Nodes × NodeAtlas × List AtlasCmd} :
      Reachable assets ns atlas → ValidUpdate tu ns →
      update_nodes assets tu ns atlas q = .ok r →
      Reachable assets r.2.1 r.2.2.1
  | asset {ns ns' : Nodes} {atlas : NodeAtlas} {h : Nat} :
      Reachable assets ns atlas →
      applyCreated h [ns] = .ok [ns'] →
      Reachable assets ns' atlas

/-! ### Handle-registration fold lemmas -/

theorem alookup_some_mem {α : Type} {k : Nat} {v : α} {l : List (Nat × α)}
    (h : alookup k l = some v) : (k, v) ∈ l := by
  induction l with
  | nil => simp [alookup] at h
  | cons p rest ih =>
    by_cases hk : p.1 = k
    · rw [show alookup k (p :: rest) = if p.1 = k then some p.2 else alookup k rest from rfl,
          if_pos hk] at h
      have hv : p.2 = v := by injection h
      have hp : (k, v) = p := by
        cases p
        cases hk
        cases hv
        rfl
      rw [hp]
      exact List.mem_cons_self _ _
    · rw [show alookup k (p :: rest) = if p.1 = k then some p.2 else alookup k rest from rfl,
          if_neg hk] at h
      exact List.mem_cons_of_mem _ (ih h)

theorem mem_ainsert {α : Type} {q : Nat × α} {k : Nat} {v : α} {l : List (Nat × α)}
    (h : q ∈ ainsert k v l) : q = (k, v) ∨ q ∈ l := by
  simp only [ainsert, List.mem_cons] at h
  rcases h with h | h
  · exact Or.inl h
  · exact Or.inr (mem_of_mem_aremove h)

theorem alookup_foldl_register_not_mem {hs : List Nat} {id x : Nat}
    {m : List (Nat × Nat)} (h : x ∉ hs) :
    alookup x (hs.foldl (fun acc hd => ainsert hd id acc) m) = alookup x m := by
  induction hs generalizing m with
  | nil => rfl
  | cons hd t ih =>
    simp only [List.foldl_cons]
    rw [ih (fun hc => h (List.mem_cons_of_mem _ hc))]
    exact alookup_ainsert_ne
      (fun hc => h (by rw [hc]; exact List.mem_cons_self _ _)) _ _

theorem alookup_foldl_register_mem {hs : List Nat} {id x : Nat}
    {m : List (Nat × Nat)} (h : x ∈ hs) :
    alookup x (hs.foldl (fun acc hd => ainsert hd id acc) m) = some id := by
  induction hs generalizing m with
  | nil => simp at h
  | cons hd t ih =>
    simp only [List.foldl_cons]
    by_cases ht : x ∈ t
    · exact ih ht
    · have hx : x = hd := by
        rcases List.mem_cons.mp h with h1 | h1
        · exact h1
        · exact (ht h1).elim
      subst hx
      rw [alookup_foldl_register_not_mem ht, alookup_ainsert_self]

theorem mem_akeys_foldl_register {hs : List Nat} {id x : Nat} {m : List (Nat × Nat)} :
    x ∈ akeys (hs.foldl (fun acc hd => ainsert hd id acc) m) ↔ x ∈ hs ∨ x ∈ akeys m := by
  induction hs generalizing m with
  | nil => simp
  | cons hd t ih =>
    simp only [List.foldl_cons, List.mem_cons]
    rw [ih, mem_akeys_ainsert]
    tauto

theorem nodup_akeys_foldl_register {hs : List Nat} {id : Nat} {m : List (Nat × Nat)}
    (h : (akeys m).Nodup) :
    (akeys (hs.foldl (fun acc hd => ainsert hd id acc) m)).Nodup := by
  induction hs generalizing m with
  | nil => exact h
  | cons hd t ih =>
    simp only [List.foldl_cons]
    exact ih (nodup_akeys_ainsert _ _ h)

/-! ### `drainActivate` characterization -/

theorem drainActivate_active (a : Nat → List Nat) (ids : List Nat) (ns : Nodes)
    (p : List NodeData) :
    (drainActivate a ids ns p).1.active_nodes = ns.active_nodes := by
  induction ids generalizing ns p with
  | nil => rfl
  | cons id rest ih =>
    simp only [drainActivate]
    cases alookup id ns.inactive_nodes <;> simp [ih]

theorem drainActivate_alookup_inactive (a : Nat → List Nat) {ids : List Nat}
    (ns : Nodes) (p : List NodeData) (j : Nat) :
    alookup j (drainActivate a ids ns p).1.inactive_nodes =
      if j ∈ ids then none else alookup j ns.inactive_nodes := by
  induction ids generalizing ns p with
  | nil => simp [drainActivate]
  | cons id rest ih =>
    simp only [drainActivate]
    cases hl : alookup id ns.inactive_nodes with
    | some node =>
      simp only []
      rw [ih]
      by_cases hj : j = id
      · subst hj
        by_cases hr : j ∈ rest <;>
          simp [hr, alookup_aremove_self, List.mem_cons]
      · by_cases hr : j ∈ rest <;>
          simp [hr, hj, alookup_aremove_ne hj, List.mem_cons]
    | none =>
      simp only []
      rw [ih]
      by_cases hj : j = id
      · subst hj
        by_cases hr : j ∈ rest <;> simp [hr, hl, List.mem_cons]
      · by_cases hr : j ∈ rest <;> simp [hr, hj, List.mem_cons]

theorem drainActivate_alookup_loading (a : Nat → List Nat) {ids : List Nat}
    (hn : ids.Nodup) (ns : Nodes) (p : List NodeData) (j : Nat) :
    alookup j (drainActivate a ids ns p).1.loading_nodes =
      if j ∈ ids ∧ j ∉ akeys ns.inactive_nodes then some ⟨j, a j, none⟩
      else alookup j ns.loading_nodes := by
  induction ids generalizing ns p with
  | nil => simp [drainActivate]
  | cons id rest ih =>
    have hrest : rest.Nodup := (List.nodup_cons.mp hn).2
    have hid : id ∉ rest := (List.nodup_cons.mp hn).1
    simp only [drainActivate]
    cases hl : alookup id ns.inactive_nodes with
    | some node =>
      simp only []
      rw [ih hrest]
      have hmem : id ∈ akeys ns.inactive_nodes :=
        alookup_isSome_iff_mem_akeys.mp (by rw [hl]; rfl)
      by_cases hj : j = id
      · subst hj
        simp [hid, hmem, List.mem_cons]
      · by_cases hr : j ∈ rest
        · simp [hr, hj, mem_akeys_aremove, List.mem_cons]
        · simp [hr, hj, List.mem_cons]
    | none =>
      simp only []
      rw [ih hrest]
      have hmem : id ∉ akeys ns.inactive_nodes :=
        fun hc => by
          have := alookup_isSome_iff_mem_akeys.mpr hc
          rw [hl] at this
          exact Bool.noConfusion this
      by_cases hj : j = id
      · subst hj
        simp only [hid, false_and, if_false, List.mem_cons, true_or, hmem,
          not_false_iff, and_self, if_true]
        exact alookup_ainsert_self _ _ _
      · by_cases hr : j ∈ rest <;>
          simp [hr, hj, List.mem_cons, NodeData.load, alookup_ainsert_ne hj]

theorem drainActivate_alookup_statuses (a : Nat → List Nat) {ids : List Nat}
    (hn : ids.Nodup) (ns : Nodes) (p : List NodeData) (j : Nat) :
    alookup j (drainActivate a ids ns p).1.load_statuses =
      if j ∈ ids ∧ j ∉ akeys ns.inactive_nodes then some ⟨false⟩
      else alookup j ns.load_statuses := by
  induction ids generalizing ns p with
  | nil => simp [drainActivate]
  | cons id rest ih =>
    have hrest : rest.Nodup := (List.nodup_cons.mp hn).2
    have hid : id ∉ rest := (List.nodup_cons.mp hn).1
    simp only [drainActivate]
    cases hl : alookup id ns.inactive_nodes with
    | some node =>
      simp only []
      rw [ih hrest]
      have hmem : id ∈ akeys ns.inactive_nodes :=
        alookup_isSome_iff_mem_akeys.mp (by rw [hl]; rfl)
      by_cases hj : j = id
      · subst hj
        simp [hid, hmem, List.mem_cons]
      · by_cases hr : j ∈ rest
        · simp [hr, hj, mem_akeys_aremove, List.mem_cons]
        · simp [hr, hj, List.mem_cons]
    | none =>
      simp only []
      rw [ih hrest]
      have hmem : id ∉ akeys ns.inactive_nodes :=
        fun hc => by
          have := alookup_isSome_iff_mem_akeys.mpr hc
          rw [hl] at this
          exact Bool.noConfusion this
      by_cases hj : j = id
      · subst hj
        simp only [hid, false_and, if_false, List.mem_cons, true_or, hmem,
          not_false_iff, and_self, if_true]
        exact alookup_ainsert_self _ _ _
      · by_cases hr : j ∈ rest <;>
          simp [hr, hj, List.mem_cons, NodeData.load, alookup_ainsert_ne hj]

theorem drainActivate_alookup_mapping_skip (a : Nat → List Nat) {ids : List Nat}
    {h : Nat} (hall : ∀ i ∈ ids, h ∉ a i) (ns : Nodes) (p : List NodeData) :
    alookup h (drainActivate a ids ns p).1.handle_mapping =
      alookup h ns.handle_mapping := by
  induction ids generalizing ns p with
  | nil => rfl
  | cons id rest ih =>
    have hrest : ∀ i ∈ rest, h ∉ a i := fun i hi => hall i (List.mem_cons_of_mem _ hi)
    simp only [drainActivate]
    cases hl : alookup id ns.inactive_nodes with
    | some node => exact ih hrest _ _
    | none =>
      rw [ih hrest]
      exact alookup_foldl_register_not_mem (hall id (List.mem_cons_self _ _))

theorem drainActivate_alookup_mapping_hit (a : Nat → List Nat) {ids : List Nat}
    {h j : Nat} (hn : ids.Nodup) (hj : j ∈ ids) (ns : Nodes) (p : List NodeData)
    (hji : j ∉ akeys ns.inactive_nodes) (hh : h ∈ a j)
    (hother : ∀ i ∈ ids, i ≠ j → h ∉ a i) :
    alookup h (drainActivate a ids ns p).1.handle_mapping = some j := by
  induction ids generalizing ns p with
  | nil => simp at hj
  | cons id rest ih =>
    have hrest : rest.Nodup := (List.nodup_cons.mp hn).2
    have hid : id ∉ rest := (List.nodup_cons.mp hn).1
    simp only [drainActivate]
    by_cases hje : id = j
    · subst hje
      have hl : alookup id ns.inactive_nodes = none :=
        alookup_eq_none_iff_not_mem_akeys.mpr hji
      rw [hl]
      rw [drainActivate_alookup_mapping_skip a
            (fun i hi hc => hother i (List.mem_cons_of_mem _ hi)
              (fun he => hid (he ▸ hi)) hc)]
      exact alookup_foldl_register_mem hh
    · have hjr : j ∈ rest := by
        rcases List.mem_cons.mp hj with h1 | h1
        · exact ((hje h1.symm).elim)
        · exact h1
      cases hl : alookup id ns.inactive_nodes with
      | some node =>
        refine ih hrest hjr _ _ ?_ ?_
        · rw [mem_akeys_aremove]
          exact fun hc => hji hc.1
        · exact fun i hi hne => hother i (List.mem_cons_of_mem _ hi) hne
      | none =>
        have hmap : alookup h ((a id).foldl (fun acc hd => ainsert hd id acc)
            ns.handle_mapping) = alookup h ns.handle_mapping := by
          exact alookup_foldl_register_not_mem
            (hother id (List.mem_cons_self _ _) (fun he => hje he))
        refine ih hrest hjr _ _ hji ?_
        exact fun i hi hne => hother i (List.mem_cons_of_mem _ hi) hne

theorem drainActivate_pending_src (a : Nat → List Nat) {ids : List Nat}
    (ns : Nodes) (p : List NodeData)
    (hkm : ∀ q ∈ ns.inactive_nodes, (Prod.snd q).id = q.1) :
    ∀ n ∈ (drainActivate a ids ns p).2,
      n ∈ p ∨ (n.id ∈ ids ∧ alookup n.id ns.inactive_nodes = some n) := by
  induction ids generalizing ns p with
  | nil =>
    intro n hn
    exact Or.inl hn
  | cons id rest ih =>
    intro n hn
    simp only [drainActivate] at hn
    cases hl : alookup id ns.inactive_nodes with
    | some node =>
      rw [hl] at hn
      simp only [] at hn
      have hkm' : ∀ q ∈ aremove id ns.inactive_nodes, (Prod.snd q).id = q.1 :=
        fun q hq => hkm q (mem_of_mem_aremove hq)
      rcases ih _ _ hkm' n hn with hp | ⟨hni, hla⟩
      · rcases List.mem_append.mp hp with hp1 | hp2
        · exact Or.inl hp1
        · have hnn : n = node := by simpa using hp2
          subst hnn
          have hnid : n.id = id := hkm (id, n) (alookup_some_mem hl)
          exact Or.inr ⟨by rw [hnid]; exact List.mem_cons_self _ _, by rw [hnid]; exact hl⟩
      · have hne : n.id ≠ id := by
          intro hc
          rw [hc, alookup_aremove_self] at hla
          exact Option.noConfusion hla
        rw [alookup_aremove_ne hne] at hla
        exact Or.inr ⟨List.mem_cons_of_mem _ hni, hla⟩
    | none =>
      rw [hl] at hn
      simp only [] at hn
      have hres := ih { ns with
          loading_nodes :=
            ainsert id (NodeData.load a id ns.load_statuses ns.handle_mapping).1
              ns.loading_nodes,
          load_statuses := (NodeData.load a id ns.load_statuses ns.handle_mapping).2.1,
          handle_mapping := (NodeData.load a id ns.load_statuses ns.handle_mapping).2.2 }
        p hkm n hn
      rcases hres with hp | ⟨hni, hla⟩
      · exact Or.inl hp
      · exact Or.inr ⟨List.mem_cons_of_mem _ hni, hla⟩

theorem drainActivate_pending_length (a : Nat → List Nat) (ids : List Nat)
    (ns : Nodes) (p : List NodeData) :
    (drainActivate a ids ns p).2.length ≤ p.length + ids.length := by
  induction ids generalizing ns p with
  | nil => simp [drainActivate]
  | cons id rest ih =>
    simp only [drainActivate]
    cases alookup id ns.inactive_nodes with
    | some node =>
      have hih := ih { ns with inactive_nodes := aremove id ns.inactive_nodes } (p ++ [node])
      simp only [List.length_append, List.length_cons, List.length_nil] at hih ⊢
      omega
    | none =>
      have hih := ih { ns with
          loading_nodes :=
            ainsert id (NodeData.load a id ns.load_statuses ns.handle_mapping).1
              ns.loading_nodes,
          load_statuses := (NodeData.load a id ns.load_statuses ns.handle_mapping).2.1,
          handle_mapping := (NodeData.load a id ns.load_statuses ns.handle_mapping).2.2 } p
      simp only [List.length_cons] at hih ⊢
      omega

theorem countFinished_aremove_le (k : Nat) (l : List (Nat × LoadStatus)) :
    countFinished (aremove k l) ≤ countFinished l := by
  have hs : List.Sublist (aremove k l) l := List.filter_sublist _
  exact (hs.filter _).length_le

theorem countFinished_ainsert_false_le (k : Nat) (l : List (Nat × LoadStatus)) :
    countFinished (ainsert k ⟨false⟩ l) ≤ countFinished l := by
  have : countFinished (ainsert k ⟨false⟩ l) = countFinished (aremove k l) := by
    simp [countFinished, ainsert, List.filter_cons]
  rw [this]
  exact countFinished_aremove_le k l

theorem drainActivate_countFinished (a : Nat → List Nat) (ids : List Nat)
    (ns : Nodes) (p : List NodeData) :
    countFinished (drainActivate a ids ns p).1.load_statuses ≤
      countFinished ns.load_statuses := by
  induction ids generalizing ns p with
  | nil => exact Nat.le_refl _
  | cons id rest ih =>
    simp only [drainActivate]
    cases alookup id ns.inactive_nodes with
    | some node => exact ih _ _
    | none =>
      refine Nat.le_trans (ih _ _) ?_
      exact countFinished_ainsert_false_le id ns.load_statuses

theorem drainActivate_nodup (a : Nat → List Nat) (ids : List Nat)
    (ns : Nodes) (p : List NodeData) (h : NodupKeys ns) :
    NodupKeys (drainActivate a ids ns p).1 := by
  induction ids generalizing ns p with
  | nil => exact h
  | cons id rest ih =>
    obtain ⟨h1, h2, h3, h4, h5⟩ := h
    simp only [drainActivate]
    cases alookup id ns.inactive_nodes with
    | some node =>
      exact ih _ _ ⟨h1, h2, h3, nodup_akeys_aremove id h4, h5⟩
    | none =>
      refine ih _ _ ⟨?_, ?_, ?_, h4, h5⟩
      · exact nodup_akeys_foldl_register h1
      · exact nodup_akeys_ainsert _ _ h2
      · exact nodup_akeys_ainsert _ _ h3

theorem drainActivate_keysmatch (a : Nat → List Nat) (ids : List Nat)
    (ns : Nodes) (p : List NodeData) (h : KeysMatch ns) :
    KeysMatch (drainActivate a ids ns p).1 := by
  induction ids generalizing ns p with
  | nil => exact h
  | cons id rest ih =>
    obtain ⟨h1, h2, h3⟩ := h
    simp only [drainActivate]
    cases alookup id ns.inactive_nodes with
    | some node =>
      refine ih _ _ ⟨h1, ?_, h3⟩
      exact fun q hq => h2 q (mem_of_mem_aremove hq)
    | none =>
      refine ih _ _ ⟨?_, h2, h3⟩
      intro q hq
      rcases mem_ainsert hq with hq1 | hq2
      · rw [hq1]
        rfl
      · exact h1 q hq2

theorem drainActivate_pending_nodup (a : Nat → List Nat) {ids : List Nat}
    (ns : Nodes) (p : List NodeData)
    (hkm : ∀ q ∈ ns.inactive_nodes, (Prod.snd q).id = q.1)
    (hn : ids.Nodup) (hp : (p.map NodeData.id).Nodup)
    (hdisj : ∀ n ∈ p, n.id ∉ ids) :
    ((drainActivate a ids ns p).2.map NodeData.id).Nodup := by
  induction ids generalizing ns p with
  | nil => exact hp
  | cons id rest ih =>
    have hrest : rest.Nodup := (List.nodup_cons.mp hn).2
    have hid : id ∉ rest := (List.nodup_cons.mp hn).1
    simp only [drainActivate]
    cases hl : alookup id ns.inactive_nodes with
    | some node =>
      have hnid : node.id = id := hkm (id, node) (alookup_some_mem hl)
      refine ih _ _ (fun q hq => hkm q (mem_of_mem_aremove hq)) hrest ?_ ?_
      · rw [List.map_append]
        simp only [List.map_cons, List.map_nil]
        rw [List.nodup_append]
        refine ⟨hp, List.nodup_singleton _, ?_⟩
        intro x hx
        simp only [List.mem_singleton]
        intro hc
        rcases List.mem_map.mp hx with ⟨n, hn1, hn2⟩
        have : n.id = id := by rw [hn2, hc, hnid]
        exact hdisj n hn1 (this ▸ List.mem_cons_self _ _)
      · intro n hnmem
        rcases List.mem_append.mp hnmem with hp1 | hp2
        · exact fun hc => hdisj n hp1 (List.mem_cons_of_mem _ hc)
        · have : n = node := by simpa using hp2
          rw [this, hnid]
          exact hid
    | none =>
      refine ih _ _ hkm hrest hp ?_
      exact fun n hnm hc => hdisj n hnm (List.mem_cons_of_mem _ hc)

/-! ### `sweepStatuses` characterization -/

theorem sweepStatuses_ok_iff (sts : List (Nat × LoadStatus))
    (loading : List (Nat × NodeData)) (pending : List NodeData) :
    exceptOk (sweepStatuses sts loading pending) = sweepOkB sts loading := by
  induction sts generalizing loading pending with
  | nil => rfl
  | cons pr rest ih =>
    obtain ⟨id, st⟩ := pr
    simp only [sweepStatuses, sweepOkB]
    by_cases hf : st.finished
    · rw [if_pos hf, if_pos hf]
      cases hl : alookup id loading with
      | some node => simp [hl, ih]
      | none => simp [hl, exceptOk]
    · rw [if_neg hf, if_neg hf, ← ih loading pending]
      cases hsw : sweepStatuses rest loading pending with
      | ok r => simp [Except.map, exceptOk]
      | error e => simp [Except.map, exceptOk]

theorem sweepStatuses_statuses {sts : List (Nat × LoadStatus)}
    {loading : List (Nat × NodeData)} {pending : List NodeData}
    {r : List (Nat × LoadStatus) × List (Nat × NodeData) × List NodeData}
    (hok : sweepStatuses sts loading pending = .ok r) :
    r.1 = sts.filter (fun p => !p.2.finished) := by
  induction sts generalizing loading pending r with
  | nil =>
    simp only [sweepStatuses] at hok
    injection hok with h
    rw [← h]
    rfl
  | cons pr rest ih =>
    obtain ⟨id, st⟩ := pr
    simp only [sweepStatuses] at hok
    by_cases hf : st.finished
    · rw [if_pos hf] at hok
      cases hl : alookup id loading with
      | some node =>
        rw [hl] at hok
        rw [ih hok, List.filter_cons]
        simp [hf]
      | none =>
        rw [hl] at hok
        exact Except.noConfusion hok
    · rw [if_neg hf] at hok
      cases hsw : sweepStatuses rest loading pending with
      | ok r' =>
        rw [hsw] at hok
        simp only [Except.map] at hok
        injection hok with h
        rw [← h]
        simp only [List.filter_cons]
        rw [show r'.1 = rest.filter (fun p => !(Prod.snd p).finished) from ih hsw]
        simp [hf]
      | error e =>
        rw [hsw] at hok
        simp only [Except.map] at hok
        exact Except.noConfusion hok

theorem sweepStatuses_alookup_loading {sts : List (Nat × LoadStatus)}
    {loading : List (Nat × NodeData)} {pending : List NodeData}
    {r : List (Nat × LoadStatus) × List (Nat × NodeData) × List NodeData}
    (hn : (akeys sts).Nodup)
    (hok : sweepStatuses sts loading pending = .ok r) (j : Nat) :
    alookup j r.2.1 =
      if ((alookup j sts).any fun st => st.finished) then none else alookup j loading := by
  induction sts generalizing loading pending r with
  | nil =>
    simp only [sweepStatuses] at hok
    injection hok with h
    rw [← h]
    simp [alookup]
  | cons pr rest ih =>
    obtain ⟨id, st⟩ := pr
    have hcons : (id :: akeys rest).Nodup := hn
    have hrest : (akeys rest).Nodup := (List.nodup_cons.mp hcons).2
    have hidr : id ∉ akeys rest := (List.nodup_cons.mp hcons).1
    simp only [sweepStatuses] at hok
    by_cases hf : st.finished
    · rw [if_pos hf] at hok
      cases hl : alookup id loading with
      | some node =>
        rw [hl] at hok
        rw [ih hrest hok]
        by_cases hj : j = id
        · subst hj
          have : alookup j rest = none := alookup_eq_none_iff_not_mem_akeys.mpr hidr
          simp [this, alookup, hf, alookup_aremove_self]
        · have hji : id ≠ j := fun hc => hj hc.symm
          simp [alookup, hji, alookup_aremove_ne hj]
      | none =>
        rw [hl] at hok
        exact Except.noConfusion hok
    · rw [if_neg hf] at hok
      cases hsw : sweepStatuses rest loading pending with
      | ok r' =>
        rw [hsw] at hok
        simp only [Except.map] at hok
        injection hok with h
        rw [← h]
        simp only []
        rw [ih hrest hsw]
        by_cases hj : j = id
        · subst hj
          have : alookup j rest = none := alookup_eq_none_iff_not_mem_akeys.mpr hidr
          simp [this, alookup, hf]
        · have hji : id ≠ j := fun hc => hj hc.symm
          simp [alookup, hji]
      | error e =>
        rw [hsw] at hok
        simp only [Except.map] at hok
        exact Except.noConfusion hok

theorem sweepStatuses_pending_mono {sts : List (Nat × LoadStatus)}
    {loading : List (Nat × NodeData)} {pending : List NodeData}
    {r : List (Nat × LoadStatus) × List (Nat × NodeData) × List NodeData}
    (hok : sweepStatuses sts loading pending = .ok r) :
    ∀ n ∈ pending, n ∈ r.2.2 := by
  induction sts generalizing loading pending r with
  | nil =>
    simp only [sweepStatuses] at hok
    injection hok with h
    rw [← h]
    exact fun n hn => hn
  | cons pr rest ih =>
    obtain ⟨id, st⟩ := pr
    simp only [sweepStatuses] at hok
    by_cases hf : st.finished
    · rw [if_pos hf] at hok
      cases hl : alookup id loading with
      | some node =>
        rw [hl] at hok
        exact fun n hn => ih hok n (List.mem_append.mpr (Or.inl hn))
      | none =>
        rw [hl] at hok
        exact Except.noConfusion hok
    · rw [if_neg hf] at hok
      cases hsw : sweepStatuses rest loading pending with
      | ok r' =>
        rw [hsw] at hok
        simp only [Except.map] at hok
        injection hok with h
        rw [← h]
        exact fun n hn => ih hsw n hn
      | error e =>
        rw [hsw] at hok
        simp only [Except.map] at hok
        exact Except.noConfusion hok

theorem sweepStatuses_pending_src {sts : List (Nat × LoadStatus)}
    {loading : List (Nat × NodeData)} {pending : List NodeData}
    {r : List (Nat × LoadStatus) × List (Nat × NodeData) × List NodeData}
    (hok : sweepStatuses sts loading pending = .ok r) :
    ∀ n ∈ r.2.2, n ∈ pending ∨
      ∃ pr, pr ∈ sts ∧ (Prod.snd pr).finished = true ∧ alookup pr.1 loading = some n := by
  induction sts generalizing loading pending r with
  | nil =>
    simp only [sweepStatuses] at hok
    injection hok with h
    rw [← h]
    exact fun n hn => Or.inl hn
  | cons pr0 rest ih =>
    obtain ⟨id, st⟩ := pr0
    simp only [sweepStatuses] at hok
    by_cases hf : st.finished
    · rw [if_pos hf] at hok
      cases hl : alookup id loading with
      | some node =>
        rw [hl] at hok
        intro n hn
        rcases ih hok n hn with hp | ⟨pr, hmem, hfin, hla⟩
        · rcases List.mem_append.mp hp with hp1 | hp2
          · exact Or.inl hp1
          · have : n = node := by simpa using hp2
            subst this
            exact Or.inr ⟨(id, st), List.mem_cons_self _ _, hf, hl⟩
        · have hne : pr.1 ≠ id := by
            intro hc
            rw [hc, alookup_aremove_self] at hla
            exact Option.noConfusion hla
          rw [alookup_aremove_ne hne] at hla
          exact Or.inr ⟨pr, List.mem_cons_of_mem _ hmem, hfin, hla⟩
      | none =>
        rw [hl] at hok
        exact Except.noConfusion hok
    · rw [if_neg hf] at hok
      cases hsw : sweepStatuses rest loading pending with
      | ok r' =>
        rw [hsw] at hok
        simp only [Except.map] at hok
        injection hok with h
        rw [← h]
        intro n hn
        rcases ih hsw n hn with hp | ⟨pr, hmem, hfin, hla⟩
        · exact Or.inl hp
        · exact Or.inr ⟨pr, List.mem_cons_of_mem _ hmem, hfin, hla⟩
      | error e =>
        rw [hsw] at hok
        simp only [Except.map] at hok
        exact Except.noConfusion hok

theorem sweepStatuses_finished_queued {sts : List (Nat × LoadStatus)}
    {loading : List (Nat × NodeData)} {pending : List NodeData}
    {r : List (Nat × LoadStatus) × List (Nat × NodeData) × List NodeData}
    (hn : (akeys sts).Nodup)
    (hok : sweepStatuses sts loading pending = .ok r) :
    ∀ pr ∈ sts, (Prod.snd pr).finished = true →
      ∃ n, alookup pr.1 loading = some n ∧ n ∈ r.2.2 := by
  induction sts generalizing loading pending r with
  | nil =>
    intro pr hpr _
    exact absurd hpr (List.not_mem_nil _)
  | cons pr0 rest ih =>
    obtain ⟨id, st⟩ := pr0
    have hcons : (id :: akeys rest).Nodup := hn
    have hrest : (akeys rest).Nodup := (List.nodup_cons.mp hcons).2
    have hidr : id ∉ akeys rest := (List.nodup_cons.mp hcons).1
    simp only [sweepStatuses] at hok
    by_cases hf : st.finished
    · rw [if_pos hf] at hok
      cases hl : alookup id loading with
      | some node =>
        rw [hl] at hok
        intro pr hpr hfin
        rcases List.mem_cons.mp hpr with hpr1 | hpr2
        · refine ⟨node, ?_, ?_⟩
          · rw [hpr1]
            exact hl
          · exact sweepStatuses_pending_mono hok node (List.mem_append.mpr (Or.inr (List.mem_singleton.mpr rfl)))
        · have hne : pr.1 ≠ id := by
            intro hc
            exact hidr (hc ▸ (List.mem_map.mpr ⟨pr, hpr2, rfl⟩))
          rcases ih hrest hok pr hpr2 hfin with ⟨n, hla, hmem⟩
          rw [alookup_aremove_ne hne] at hla
          exact ⟨n, hla, hmem⟩
      | none =>
        rw [hl] at hok
        exact Except.noConfusion hok
    · rw [if_neg hf] at hok
      cases hsw : sweepStatuses rest loading pending with
      | ok r' =>
        rw [hsw] at hok
        simp only [Except.map] at hok
        injection hok with h
        intro pr hpr hfin
        rcases List.mem_cons.mp hpr with hpr1 | hpr2
        · rw [hpr1] at hfin
          exact absurd hfin hf
        · rcases ih hrest hsw pr hpr2 hfin with ⟨n, hla, hmem⟩
          refine ⟨n, hla, ?_⟩
          rw [← h]
          exact hmem
      | error e =>
        rw [hsw] at hok
        simp only [Except.map] at hok
        exact Except.noConfusion hok

theorem sweepStatuses_pending_length {sts : List (Nat × LoadStatus)}
    {loading : List (Nat × NodeData)} {pending : List NodeData}
    {r : List (Nat × LoadStatus) × List (Nat × NodeData) × List NodeData}
    (hok : sweepStatuses sts loading pending = .ok r) :
    r.2.2.length = pending.length + countFinished sts := by
  induction sts generalizing loading pending r with
  | nil =>
    simp only [sweepStatuses] at hok
    injection hok with h
    rw [← h]
    simp [countFinished]
  | cons pr0 rest ih =>
    obtain ⟨id, st⟩ := pr0
    simp only [sweepStatuses] at hok
    by_cases hf : st.finished
    · rw [if_pos hf] at hok
      cases hl : alookup id loading with
      | some node =>
        rw [hl] at hok
        rw [ih hok]
        simp only [List.length_append, List.length_cons, List.length_nil,
          countFinished, List.filter_cons]
        simp [hf]
        omega
      | none =>
        rw [hl] at hok
        exact Except.noConfusion hok
    · rw [if_neg hf] at hok
      cases hsw : sweepStatuses rest loading pending with
      | ok r' =>
        rw [hsw] at hok
        simp only [Except.map] at hok
        injection hok with h
        rw [← h]
        simp only []
        rw [ih hsw]
        simp only [countFinished, List.filter_cons]
        simp [hf]
      | error e =>
        rw [hsw] at hok
        simp only [Except.map] at hok
        exact Except.noConfusion hok

theorem sweepStatuses_loading_sub {sts : List (Nat × LoadStatus)}
    {loading : List (Nat × NodeData)} {pending : List NodeData}
    {r : List (Nat × LoadStatus) × List (Nat × NodeData) × List NodeData}
    (hok : sweepStatuses sts loading pending = .ok r) :
    ∀ q ∈ r.2.1, q ∈ loading := by
  induction sts generalizing loading pending r with
  | nil =>
    simp only [sweepStatuses] at hok
    injection hok with h
    rw [← h]
    exact fun q hq => hq
  | cons pr0 rest ih =>
    obtain ⟨id, st⟩ := pr0
    simp only [sweepStatuses] at hok
    by_cases hf : st.finished
    · rw [if_pos hf] at hok
      cases hl : alookup id loading with
      | some node =>
        rw [hl] at hok
        exact fun q hq => mem_of_mem_aremove (ih hok q hq)
      | none =>
        rw [hl] at hok
        exact Except.noConfusion hok
    · rw [if_neg hf] at hok
      cases hsw : sweepStatuses rest loading pending with
      | ok r' =>
        rw [hsw] at hok
        simp only [Except.map] at hok
        injection hok with h
        rw [← h]
        exact fun q hq => ih hsw q hq
      | error e =>
        rw [hsw] at hok
        simp only [Except.map] at hok
        exact Except.noConfusion hok

theorem sweepStatuses_loading_nodup {sts : List (Nat × LoadStatus)}
    {loading : List (Nat × NodeData)} {pending : List NodeData}
    {r : List (Nat × LoadStatus) × List (Nat × NodeData) × List NodeData}
    (hok : sweepStatuses sts loading pending = .ok r)
    (hn : (akeys loading).Nodup) : (akeys r.2.1).Nodup := by
  induction sts generalizing loading pending r with
  | nil =>
    simp only [sweepStatuses] at hok
    injection hok with h
    rw [← h]
    exact hn
  | cons pr0 rest ih =>
    obtain ⟨id, st⟩ := pr0
    simp only [sweepStatuses] at hok
    by_cases hf : st.finished
    · rw [if_pos hf] at hok
      cases hl : alookup id loading with
      | some node =>
        rw [hl] at hok
        exact ih hok (nodup_akeys_aremove id hn)
      | none =>
        rw [hl] at hok
        exact Except.noConfusion hok
    · rw [if_neg hf] at hok
      cases hsw : sweepStatuses rest loading pending with
      | ok r' =>
        rw [hsw] at hok
        simp only [Except.map] at hok
        injection hok with h
        have h21 : r.2.1 = r'.2.1 := by rw [← h]
        rw [h21]
        exact ih hsw hn
      | error e =>
        rw [hsw] at hok
        simp only [Except.map] at hok
        exact Except.noConfusion hok

/-! ### `drainDeactivate` characterization -/

theorem remove_node_node (atlas : NodeAtlas) (n : NodeData) (q : List AtlasCmd) :
    (atlas.remove_node n q).2.1 = ⟨n.id, n.handles, none⟩ := by
  cases n with
  | mk id handles atlasId =>
    cases atlasId <;> rfl

theorem add_node_node (atlas : NodeAtlas) (n : NodeData) (q : List AtlasCmd) :
    (atlas.add_node n q).2.1.id = n.id ∧ (atlas.add_node n q).2.1.handles = n.handles := by
  cases h : atlas.available_ids <;> simp [NodeAtlas.add_node, h]

theorem drainDeactivate_ok_iff (ids : List Nat) (ns : Nodes) (atlas : NodeAtlas)
    (q : List AtlasCmd) :
    exceptOk (drainDeactivate ids ns atlas q) = deactOkB ids ns.active_nodes := by
  induction ids generalizing ns atlas q with
  | nil => rfl
  | cons id rest ih =>
    simp only [drainDeactivate, deactOkB]
    cases hl : alookup id ns.active_nodes with
    | some node => simp [hl, ih]
    | none => simp [hl, exceptOk]

theorem drainDeactivate_alookup_active {ids : List Nat} (hn : ids.Nodup)
    {ns : Nodes} {atlas : NodeAtlas} {q : List AtlasCmd}
    {r : Nodes × NodeAtlas × List AtlasCmd}
    (hok : drainDeactivate ids ns atlas q = .ok r) (j : Nat) :
    alookup j r.1.active_nodes = if j ∈ ids then none else alookup j ns.active_nodes := by
  induction ids generalizing ns atlas q r with
  | nil =>
    simp only [drainDeactivate] at hok
    injection hok with h
    rw [← h]
    simp
  | cons id rest ih =>
    have hrest : rest.Nodup := (List.nodup_cons.mp hn).2
    have hid : id ∉ rest := (List.nodup_cons.mp hn).1
    simp only [drainDeactivate] at hok
    cases hl : alookup id ns.active_nodes with
    | none =>
      rw [hl] at hok
      exact Except.noConfusion hok
    | some node =>
      rw [hl] at hok
      rw [ih hrest hok]
      by_cases hj : j = id
      · subst hj
        simp [hid, alookup_aremove_self, List.mem_cons]
      · by_cases hr : j ∈ rest <;>
          simp [hr, hj, alookup_aremove_ne hj, List.mem_cons]

theorem drainDeactivate_alookup_inactive {ids : List Nat} (hn : ids.Nodup)
    {ns : Nodes} {atlas : NodeAtlas} {q : List AtlasCmd}
    {r : Nodes × NodeAtlas × List AtlasCmd}
    (hok : drainDeactivate ids ns atlas q = .ok r) (j : Nat) :
    alookup j r.1.inactive_nodes =
      if j ∈ ids then (alookup j ns.active_nodes).map (fun n => ⟨n.id, n.handles, none⟩)
      else alookup j ns.inactive_nodes := by
  induction ids generalizing ns atlas q r with
  | nil =>
    simp only [drainDeactivate] at hok
    injection hok with h
    rw [← h]
    simp
  | cons id rest ih =>
    have hrest : rest.Nodup := (List.nodup_cons.mp hn).2
    have hid : id ∉ rest := (List.nodup_cons.mp hn).1
    simp only [drainDeactivate] at hok
    cases hl : alookup id ns.active_nodes with
    | none =>
      rw [hl] at hok
      exact Except.noConfusion hok
    | some node =>
      rw [hl] at hok
      rw [ih hrest hok]
      by_cases hj : j = id
      · subst hj
        rw [if_pos (List.mem_cons_self _ _), if_neg hid, hl]
        rw [remove_node_node]
        rw [alookup_ainsert_self]
        rfl
      · rw [show alookup j (aremove id ns.active_nodes) = alookup j ns.active_nodes from
          alookup_aremove_ne hj _]
        by_cases hr : j ∈ rest
        · simp [hr, hj, List.mem_cons]
        · simp [hr, hj, List.mem_cons, alookup_ainsert_ne hj]

theorem drainDeactivate_untouched {ids : List Nat}
    {ns : Nodes} {atlas : NodeAtlas} {q : List AtlasCmd}
    {r : Nodes × NodeAtlas × List AtlasCmd}
    (hok : drainDeactivate ids ns atlas q = .ok r) :
    r.1.loading_nodes = ns.loading_nodes ∧ r.1.load_statuses = ns.load_statuses ∧
      r.1.handle_mapping = ns.handle_mapping := by
  induction ids generalizing ns atlas q r with
  | nil =>
    simp only [drainDeactivate] at hok
    injection hok with h
    rw [← h]
    exact ⟨rfl, rfl, rfl⟩
  | cons id rest ih =>
    simp only [drainDeactivate] at hok
    cases hl : alookup id ns.active_nodes with
    | none =>
      rw [hl] at hok
      exact Except.noConfusion hok
    | some node =>
      rw [hl] at hok
      exact @ih { ns with
          inactive_nodes := ainsert id (atlas.remove_node node q).2.1 ns.inactive_nodes,
          active_nodes := aremove id ns.active_nodes }
        (atlas.remove_node node q).1 (atlas.remove_node node q).2.2 r hok

theorem drainDeactivate_active_length {ids : List Nat}
    {ns : Nodes} {atlas : NodeAtlas} {q : List AtlasCmd}
    {r : Nodes × NodeAtlas × List AtlasCmd}
    (hok : drainDeactivate ids ns atlas q = .ok r) :
    r.1.active_nodes.length ≤ ns.active_nodes.length := by
  induction ids generalizing ns atlas q r with
  | nil =>
    simp only [drainDeactivate] at hok
    injection hok with h
    rw [← h]
  | cons id rest ih =>
    simp only [drainDeactivate] at hok
    cases hl : alookup id ns.active_nodes with
    | none =>
      rw [hl] at hok
      exact Except.noConfusion hok
    | some node =>
      rw [hl] at hok
      exact Nat.le_trans (ih hok) (length_aremove_le id ns.active_nodes)

theorem drainDeactivate_nodup {ids : List Nat}
    {ns : Nodes} {atlas : NodeAtlas} {q : List AtlasCmd}
    {r : Nodes × NodeAtlas × List AtlasCmd}
    (hok : drainDeactivate ids ns atlas q = .ok r) (h : NodupKeys ns) :
    NodupKeys r.1 := by
  induction ids generalizing ns atlas q r with
  | nil =>
    simp only [drainDeactivate] at hok
    injection hok with h1
    rw [← h1]
    exact h
  | cons id rest ih =>
    obtain ⟨h1, h2, h3, h4, h5⟩ := h
    simp only [drainDeactivate] at hok
    cases hl : alookup id ns.active_nodes with
    | none =>
      rw [hl] at hok
      exact Except.noConfusion hok
    | some node =>
      rw [hl] at hok
      exact ih hok ⟨h1, h2, h3, nodup_akeys_ainsert _ _ h4, nodup_akeys_aremove id h5⟩

theorem drainDeactivate_keysmatch {ids : List Nat}
    {ns : Nodes} {atlas : NodeAtlas} {q : List AtlasCmd}
    {r : Nodes × NodeAtlas × List AtlasCmd}
    (hok : drainDeactivate ids ns atlas q = .ok r) (h : KeysMatch ns) :
    KeysMatch r.1 := by
  induction ids generalizing ns atlas q r with
  | nil =>
    simp only [drainDeactivate] at hok
    injection hok with h1
    rw [← h1]
    exact h
  | cons id rest ih =>
    obtain ⟨h1, h2, h3⟩ := h
    simp only [drainDeactivate] at hok
    cases hl : alookup id ns.active_nodes with
    | none =>
      rw [hl] at hok
      exact Except.noConfusion hok
    | some node =>
      rw [hl] at hok
      refine ih hok ⟨h1, ?_, fun p hp => h3 p (mem_of_mem_aremove hp)⟩
      intro p hp
      rcases mem_ainsert hp with hp1 | hp2
      · rw [hp1, remove_node_node]
        exact h3 (id, node) (alookup_some_mem hl)
      · exact h2 p hp2

/-! ### `admitPending` characterization -/

theorem admitPending_untouched (pend : List NodeData) (tu : TreeUpdate) (ns : Nodes)
    (atlas : NodeAtlas) (q : List AtlasCmd) :
    (admitPending pend tu ns atlas q).2.1.loading_nodes = ns.loading_nodes ∧
    (admitPending pend tu ns atlas q).2.1.inactive_nodes = ns.inactive_nodes ∧
    (admitPending pend tu ns atlas q).2.1.load_statuses = ns.load_statuses ∧
    (admitPending pend tu ns atlas q).2.1.handle_mapping = ns.handle_mapping ∧
    (admitPending pend tu ns atlas q).1.nodes_to_activate = tu.nodes_to_activate ∧
    (admitPending pend tu ns atlas q).1.nodes_to_deactivate = tu.nodes_to_deactivate := by
  induction pend generalizing tu ns atlas q with
  | nil => exact ⟨rfl, rfl, rfl, rfl, rfl, rfl⟩
  | cons n rest ih =>
    simp only [admitPending]
    exact ih _ _ _ _

theorem admitPending_mem_active (pend : List NodeData) (tu : TreeUpdate) (ns : Nodes)
    (atlas : NodeAtlas) (q : List AtlasCmd) (j : Nat) :
    j ∈ akeys (admitPending pend tu ns atlas q).2.1.active_nodes ↔
      j ∈ pend.map NodeData.id ∨ j ∈ akeys ns.active_nodes := by
  induction pend generalizing tu ns atlas q with
  | nil => simp [admitPending]
  | cons n rest ih =>
    simp only [admitPending]
    rw [ih]
    have hid : (atlas.add_node n q).2.1.id = n.id := (add_node_node atlas n q).1
    simp only [List.map_cons, List.mem_cons]
    rw [mem_akeys_ainsert, hid]
    tauto

theorem admitPending_mem_activated (pend : List NodeData) (tu : TreeUpdate) (ns : Nodes)
    (atlas : NodeAtlas) (q : List AtlasCmd) (j : Nat) :
    j ∈ (admitPending pend tu ns atlas q).1.activated_nodes ↔
      j ∈ pend.map NodeData.id ∨ j ∈ tu.activated_nodes := by
  induction pend generalizing tu ns atlas q with
  | nil => simp [admitPending]
  | cons n rest ih =>
    simp only [admitPending]
    rw [ih]
    have hid : (atlas.add_node n q).2.1.id = n.id := (add_node_node atlas n q).1
    simp only [List.map_cons, List.mem_cons]
    rw [mem_sinsert, hid]
    tauto

theorem admitPending_active_length (pend : List NodeData) (tu : TreeUpdate) (ns : Nodes)
    (atlas : NodeAtlas) (q : List AtlasCmd) :
    (admitPending pend tu ns atlas q).2.1.active_nodes.length ≤
      ns.active_nodes.length + pend.length := by
  induction pend generalizing tu ns atlas q with
  | nil => simp [admitPending]
  | cons n rest ih =>
    simp only [admitPending]
    refine Nat.le_trans (ih _ _ _ _) ?_
    have := length_ainsert_le (atlas.add_node n q).2.1.id (atlas.add_node n q).2.1 ns.active_nodes
    simp only [List.length_cons]
    omega

theorem admitPending_active_nodup (pend : List NodeData) (tu : TreeUpdate) (ns : Nodes)
    (atlas : NodeAtlas) (q : List AtlasCmd) (h : (akeys ns.active_nodes).Nodup) :
    (akeys (admitPending pend tu ns atlas q).2.1.active_nodes).Nodup := by
  induction pend generalizing tu ns atlas q with
  | nil => exact h
  | cons n rest ih =>
    simp only [admitPending]
    exact ih _ _ _ _ (nodup_akeys_ainsert _ _ h)

theorem admitPending_active_keysmatch (pend : List NodeData) (tu : TreeUpdate) (ns : Nodes)
    (atlas : NodeAtlas) (q : List AtlasCmd)
    (h : ∀ p ∈ ns.active_nodes, (Prod.snd p).id = p.1) :
    ∀ p ∈ (admitPending pend tu ns atlas q).2.1.active_nodes, (Prod.snd p).id = p.1 := by
  induction pend generalizing tu ns atlas q with
  | nil => exact h
  | cons n rest ih =>
    simp only [admitPending]
    refine ih _ _ _ _ ?_
    intro p hp
    rcases mem_ainsert hp with hp1 | hp2
    · rw [hp1]
    · exact h p hp2

/-! ### `update_nodes` glue -/

theorem update_nodes_ok_elim {assets : Nat → List Nat} {tu : TreeUpdate} {ns : Nodes}
    {atlas : NodeAtlas} {q : List AtlasCmd}
    {r : TreeUpdate × Nodes × NodeAtlas × List AtlasCmd}
    (hok : update_nodes assets tu ns atlas q = .ok r) :
    ∃ s d2,
      sweepStatuses (drainActivate assets tu.nodes_to_activate ns []).1.load_statuses
        (drainActivate assets tu.nodes_to_activate ns []).1.loading_nodes
        (drainActivate assets tu.nodes_to_activate ns []).2 = .ok s ∧
      drainDeactivate tu.nodes_to_deactivate
        { handle_mapping := (drainActivate assets tu.nodes_to_activate ns []).1.handle_mapping,
          load_statuses := s.1,
          loading_nodes := s.2.1,
          inactive_nodes := (drainActivate assets tu.nodes_to_activate ns []).1.inactive_nodes,
          active_nodes := (drainActivate assets tu.nodes_to_activate ns []).1.active_nodes }
        atlas q = .ok d2 ∧
      r = admitPending s.2.2 ⟨[], [], []⟩ d2.1 d2.2.1 d2.2.2 := by
  simp only [update_nodes] at hok
  cases hsw : sweepStatuses (drainActivate assets tu.nodes_to_activate ns []).1.load_statuses
      (drainActivate assets tu.nodes_to_activate ns []).1.loading_nodes
      (drainActivate assets tu.nodes_to_activate ns []).2 with
  | error e =>
    rw [hsw] at hok
    exact Except.noConfusion hok
  | ok s =>
    rw [hsw] at hok
    simp only [] at hok
    cases hdd : drainDeactivate tu.nodes_to_deactivate
        { handle_mapping := (drainActivate assets tu.nodes_to_activate ns []).1.handle_mapping,
          load_statuses := s.1,
          loading_nodes := s.2.1,
          inactive_nodes := (drainActivate assets tu.nodes_to_activate ns []).1.inactive_nodes,
          active_nodes := (drainActivate assets tu.nodes_to_activate ns []).1.active_nodes }
        atlas q with
    | error e =>
      rw [hdd] at hok
      exact Except.noConfusion hok
    | ok d2 =>
      rw [hdd] at hok
      simp only [] at hok
      injection hok with h
      exact ⟨s, d2, rfl, hdd, h.symm⟩

theorem update_nodes_ok_iff (assets : Nat → List Nat) (tu : TreeUpdate) (ns : Nodes)
    (atlas : NodeAtlas) (q : List AtlasCmd) :
    exceptOk (update_nodes assets tu ns atlas q) =
      (sweepOkB (drainActivate assets tu.nodes_to_activate ns []).1.load_statuses
          (drainActivate assets tu.nodes_to_activate ns []).1.loading_nodes
        && deactOkB tu.nodes_to_deactivate ns.active_nodes) := by
  have hact : (drainActivate assets tu.nodes_to_activate ns []).1.active_nodes =
      ns.active_nodes := drainActivate_active assets _ ns []
  have hs := sweepStatuses_ok_iff (drainActivate assets tu.nodes_to_activate ns []).1.load_statuses
    (drainActivate assets tu.nodes_to_activate ns []).1.loading_nodes
    (drainActivate assets tu.nodes_to_activate ns []).2
  rw [← hs]
  simp only [update_nodes]
  cases hsw : sweepStatuses (drainActivate assets tu.nodes_to_activate ns []).1.load_statuses
      (drainActivate assets tu.nodes_to_activate ns []).1.loading_nodes
      (drainActivate assets tu.nodes_to_activate ns []).2 with
  | error e => simp [exceptOk]
  | ok s =>
    simp only []
    have hd := drainDeactivate_ok_iff tu.nodes_to_deactivate
      { handle_mapping := (drainActivate assets tu.nodes_to_activate ns []).1.handle_mapping,
        load_statuses := s.1,
        loading_nodes := s.2.1,
        inactive_nodes := (drainActivate assets tu.nodes_to_activate ns []).1.inactive_nodes,
        active_nodes := (drainActivate assets tu.nodes_to_activate ns []).1.active_nodes }
      atlas q
    simp only [] at hd
    rw [hact] at hd
    rw [← hd]
    rw [hact]
    cases hdd : drainDeactivate tu.nodes_to_deactivate
        { handle_mapping := (drainActivate assets tu.nodes_to_activate ns []).1.handle_mapping,
          load_statuses := s.1,
          loading_nodes := s.2.1,
          inactive_nodes := (drainActivate assets tu.nodes_to_activate ns []).1.inactive_nodes,
          active_nodes := ns.active_nodes }
        atlas q with
    | error e => simp [exceptOk]
    | ok d2 => simp [exceptOk]

/-! ### `applyCreated` lemmas -/

theorem applyCreated_absent {h : Nat} {ts : List Nodes}
    (hall : ∀ t ∈ ts, alookup h t.handle_mapping = none) :
    applyCreated h ts = .ok ts := by
  induction ts with
  | nil => rfl
  | cons t rest ih =>
    simp only [applyCreated]
    rw [hall t (List.mem_cons_self _ _)]
    rw [ih (fun t' ht' => hall t' (List.mem_cons_of_mem _ ht'))]
    rfl

theorem applyCreated_front {h : Nat} {pre ts' : List Nodes}
    (hall : ∀ t ∈ pre, alookup h t.handle_mapping = none) :
    applyCreated h (pre ++ ts') = (applyCreated h ts').map (fun l => pre ++ l) := by
  induction pre with
  | nil =>
    simp only [List.nil_append]
    cases hac : applyCreated h ts' <;> simp [Except.map]
  | cons t rest ih =>
    simp only [List.cons_append, applyCreated]
    rw [hall t (List.mem_cons_self _ _)]
    simp only [List.append_eq]
    rw [ih (fun t' ht' => hall t' (List.mem_cons_of_mem _ ht'))]
    cases hac : applyCreated h ts' <;> simp [Except.map]

/-- C6: for an asset-ready notification whose handle is present in some
terrain's `handle_mapping`, `update_load_status` removes that handle's
mapping, marks the mapped node's `LoadStatus` finished (on receipt of this
one asset alone — any other handles of the node stay registered), and stops
at the first terrain containing the handle: terrains before it (which lack
the handle) and terrains after it (even if they contain the handle) are
unchanged. -/
theorem C6_update_load_status_first_match {h id : Nat} {st : LoadStatus}
    {pre post : List Nodes} {t : Nodes}
    (hpre : ∀ t' ∈ pre, alookup h t'.handle_mapping = none)
    (hmap : alookup h t.handle_mapping = some id)
    (hst : alookup id t.load_statuses = some st) :
    update_load_status [AssetEvent.created h] (pre ++ t :: post) =
      .ok (pre ++ { t with handle_mapping := aremove h t.handle_mapping,
                           load_statuses := ainsert id ⟨true⟩ t.load_statuses } :: post) ∧
    alookup id (ainsert id (⟨true⟩ : LoadStatus) t.load_statuses) = some ⟨true⟩ ∧
    (∀ h', h' ≠ h → alookup h' (aremove h t.handle_mapping) = alookup h' t.handle_mapping) := by
  refine ⟨?_, alookup_ainsert_self _ _ _, fun h' hne => alookup_aremove_ne hne _⟩
  show applyCreated h (pre ++ t :: post) = _
  rw [applyCreated_front hpre]
  simp only [applyCreated]
  rw [hmap]
  simp only []
  rw [hst]
  simp only [Except.map]

/-- Witness for C6: handle 7 maps to node 3 in the second of three terrains;
the third terrain also contains handle 7 and is not touched. -/
theorem C6_update_load_status_first_match_witness :
    (∀ t' ∈ ([⟨[], [], [], [], []⟩] : List Nodes), alookup 7 t'.handle_mapping = none) ∧
    update_load_status [AssetEvent.created 7]
        ([⟨[], [], [], [], []⟩,
          ⟨[(7, 3), (8, 3)], [(3, ⟨false⟩)], [], [], []⟩,
          ⟨[(7, 9)], [(9, ⟨false⟩)], [], [], []⟩] : List Nodes) =
      .ok [⟨[], [], [], [], []⟩,
           ⟨aremove 7 [(7, 3), (8, 3)], ainsert 3 ⟨true⟩ [(3, ⟨false⟩)], [], [], []⟩,
           ⟨[(7, 9)], [(9, ⟨false⟩)], [], [], []⟩] :=
  ⟨by decide,
   (@C6_update_load_status_first_match 7 3 ⟨false⟩ [⟨[], [], [], [], []⟩]
      [⟨[(7, 9)], [(9, ⟨false⟩)], [], [], []⟩]
      ⟨[(7, 3), (8, 3)], [(3, ⟨false⟩)], [], [], []⟩
      (by decide) (by decide) (by decide)).1⟩

/-- C7: an asset-ready notification whose handle is absent from every
terrain's `handle_mapping` leaves all state unchanged and does not fail, and
delivering the same notification twice has the same observable effect as
delivering it once. -/
theorem C7_stale_notification_noop {h : Nat} {ts : List Nodes}
    (hall : ∀ t ∈ ts, alookup h t.handle_mapping = none) :
    update_load_status [AssetEvent.created h] ts = .ok ts ∧
    update_load_status [AssetEvent.created h, AssetEvent.created h] ts =
      update_load_status [AssetEvent.created h] ts := by
  have h1 : applyCreated h ts = .ok ts := applyCreated_absent hall
  constructor
  · simp [update_load_status, h1]
  · simp [update_load_status, h1]

/-- Witness for C7: handle 42 is registered nowhere; the notification is
ignored and a duplicate delivery changes nothing. -/
theorem C7_stale_notification_noop_witness :
    (∀ t ∈ ([⟨[(7, 3)], [(3, ⟨false⟩)], [], [], []⟩] : List Nodes),
      alookup 42 t.handle_mapping = none) ∧
    update_load_status [AssetEvent.created 42]
        ([⟨[(7, 3)], [(3, ⟨false⟩)], [], [], []⟩] : List Nodes) =
      .ok [⟨[(7, 3)], [(3, ⟨false⟩)], [], [], []⟩] :=
  ⟨by decide,
   (@C7_stale_notification_noop 42 [⟨[(7, 3)], [(3, ⟨false⟩)], [], [], []⟩] (by decide)).1⟩

/-! ### Further association-list and step lemmas -/

theorem alookup_of_mem_nodup {α : Type} {k : Nat} {v : α} {l : List (Nat × α)}
    (hn : (akeys l).Nodup) (hm : (k, v) ∈ l) : alookup k l = some v := by
  induction l with
  | nil => exact absurd hm (List.not_mem_nil _)
  | cons p rest ih =>
    have hcons : (p.1 :: akeys rest).Nodup := hn
    rcases List.mem_cons.mp hm with hm1 | hm2
    · rw [← hm1]
      simp [alookup]
    · have hk : k ∈ akeys rest := List.mem_map.mpr ⟨(k, v), hm2, rfl⟩
      have hne : p.1 ≠ k := by
        intro hc
        exact (List.nodup_cons.mp hcons).1 (hc ▸ hk)
      rw [show alookup k (p :: rest) = if p.1 = k then some p.2 else alookup k rest from rfl,
          if_neg hne]
      exact ih (List.nodup_cons.mp hcons).2 hm2

theorem nodup_akeys_filter {α : Type} (p : Nat × α → Bool) {l : List (Nat × α)}
    (hn : (akeys l).Nodup) : (akeys (l.filter p)).Nodup := by
  induction l with
  | nil => simp [akeys]
  | cons q rest ih =>
    have hcons : (q.1 :: akeys rest).Nodup := hn
    rw [List.filter_cons]
    by_cases hq : p q
    · simp only [hq, if_true]
      have : (akeys (q :: rest.filter p)) = q.1 :: akeys (rest.filter p) := rfl
      rw [this, List.nodup_cons]
      refine ⟨?_, ih (List.nodup_cons.mp hcons).2⟩
      intro hc
      rcases List.mem_map.mp hc with ⟨x, hx, hxq⟩
      exact (List.nodup_cons.mp hcons).1
        (List.mem_map.mpr ⟨x, (List.mem_filter.mp hx).1, hxq⟩)
    · simp only [hq, Bool.false_eq_true, if_false]
      exact ih (List.nodup_cons.mp hcons).2

theorem mem_akeys_filter {α : Type} {p : Nat × α → Bool} {l : List (Nat × α)} {j : Nat} :
    j ∈ akeys (l.filter p) ↔ ∃ v, (j, v) ∈ l ∧ p (j, v) := by
  constructor
  · intro hm
    rcases List.mem_map.mp hm with ⟨x, hx, hxj⟩
    rcases List.mem_filter.mp hx with ⟨hxl, hxp⟩
    refine ⟨x.2, ?_, ?_⟩
    · rw [show (j, x.2) = x by rw [← hxj]]
      exact hxl
    · rw [show ((j, x.2) : Nat × α) = x by rw [← hxj]]
      exact hxp
  · rintro ⟨v, hm, hp⟩
    exact List.mem_map.mpr ⟨(j, v), List.mem_filter.mpr ⟨hm, hp⟩, rfl⟩

theorem alookup_filter_of_pass {α : Type} {p : Nat × α → Bool} {l : List (Nat × α)}
    {k : Nat} {v : α} (h : alookup k l = some v) (hp : p (k, v) = true) :
    alookup k (l.filter p) = some v := by
  induction l with
  | nil => simp [alookup] at h
  | cons q rest ih =>
    by_cases hq : q.1 = k
    · rw [show alookup k (q :: rest) = if q.1 = k then some q.2 else alookup k rest from rfl,
          if_pos hq] at h
      have hv : q.2 = v := by injection h
      have hqe : q = (k, v) := by
        cases q
        cases hq
        cases hv
        rfl
      rw [List.filter_cons, hqe, hp]
      simp [alookup]
    · rw [show alookup k (q :: rest) = if q.1 = k then some q.2 else alookup k rest from rfl,
          if_neg hq] at h
      rw [List.filter_cons]
      by_cases hqp : p q
      · simp only [hqp, if_true]
        rw [show alookup k (q :: rest.filter p) =
            if q.1 = k then some q.2 else alookup k (rest.filter p) from rfl, if_neg hq]
        exact ih h
      · simp only [hqp, Bool.false_eq_true, if_false]
        exact ih h

theorem drainActivate_statuses_nodup (a : Nat → List Nat) (ids : List Nat)
    (ns : Nodes) (p : List NodeData) (h : (akeys ns.load_statuses).Nodup) :
    (akeys (drainActivate a ids ns p).1.load_statuses).Nodup := by
  induction ids generalizing ns p with
  | nil => exact h
  | cons id rest ih =>
    simp only [drainActivate]
    cases alookup id ns.inactive_nodes with
    | some node => exact ih _ _ h
    | none => exact ih _ _ (nodup_akeys_ainsert _ _ h)

theorem drainActivate_loading_keysmatch (a : Nat → List Nat) (ids : List Nat)
    (ns : Nodes) (p : List NodeData)
    (h : ∀ q ∈ ns.loading_nodes, (Prod.snd q).id = q.1) :
    ∀ q ∈ (drainActivate a ids ns p).1.loading_nodes, (Prod.snd q).id = q.1 := by
  induction ids generalizing ns p with
  | nil => exact h
  | cons id rest ih =>
    simp only [drainActivate]
    cases alookup id ns.inactive_nodes with
    | some node => exact ih _ _ h
    | none =>
      refine ih _ _ ?_
      intro q hq
      rcases mem_ainsert hq with hq1 | hq2
      · rw [hq1]
        rfl
      · exact h q hq2

theorem drainActivate_alookup_loading_not_mem (a : Nat → List Nat) {ids : List Nat}
    {j : Nat} (hj : j ∉ ids) (ns : Nodes) (p : List NodeData) :
    alookup j (drainActivate a ids ns p).1.loading_nodes = alookup j ns.loading_nodes := by
  induction ids generalizing ns p with
  | nil => rfl
  | cons id rest ih =>
    have hjr : j ∉ rest := fun hc => hj (List.mem_cons_of_mem _ hc)
    have hjid : j ≠ id := fun hc => hj (by rw [hc]; exact List.mem_cons_self _ _)
    simp only [drainActivate]
    cases alookup id ns.inactive_nodes with
    | some node => exact ih hjr _ _
    | none =>
      rw [ih hjr _ _]
      exact alookup_ainsert_ne hjid _ _

theorem drainActivate_alookup_statuses_not_mem (a : Nat → List Nat) {ids : List Nat}
    {j : Nat} (hj : j ∉ ids) (ns : Nodes) (p : List NodeData) :
    alookup j (drainActivate a ids ns p).1.load_statuses = alookup j ns.load_statuses := by
  induction ids generalizing ns p with
  | nil => rfl
  | cons id rest ih =>
    have hjr : j ∉ rest := fun hc => hj (List.mem_cons_of_mem _ hc)
    have hjid : j ≠ id := fun hc => hj (by rw [hc]; exact List.mem_cons_self _ _)
    simp only [drainActivate]
    cases alookup id ns.inactive_nodes with
    | some node => exact ih hjr _ _
    | none =>
      rw [ih hjr _ _]
      exact alookup_ainsert_ne hjid _ _

theorem drainDeactivate_alookup_inactive_not_mem {ids : List Nat} {j : Nat}
    (hj : j ∉ ids) {ns : Nodes} {atlas : NodeAtlas} {q : List AtlasCmd}
    {r : Nodes × NodeAtlas × List AtlasCmd}
    (hok : drainDeactivate ids ns atlas q = .ok r) :
    alookup j r.1.inactive_nodes = alookup j ns.inactive_nodes := by
  induction ids generalizing ns atlas q r with
  | nil =>
    simp only [drainDeactivate] at hok
    injection hok with h
    rw [← h]
  | cons id rest ih =>
    have hjr : j ∉ rest := fun hc => hj (List.mem_cons_of_mem _ hc)
    have hjid : j ≠ id := fun hc => hj (by rw [hc]; exact List.mem_cons_self _ _)
    simp only [drainDeactivate] at hok
    cases hl : alookup id ns.active_nodes with
    | none =>
      rw [hl] at hok
      exact Except.noConfusion hok
    | some node =>
      rw [hl] at hok
      rw [ih hjr hok]
      exact alookup_ainsert_ne hjid _ _

theorem drainActivate_pending_mono (a : Nat → List Nat) (ids : List Nat)
    (ns : Nodes) (p : List NodeData) :
    ∀ n ∈ p, n ∈ (drainActivate a ids ns p).2 := by
  induction ids generalizing ns p with
  | nil => exact fun n hn => hn
  | cons id rest ih =>
    simp only [drainActivate]
    cases alookup id ns.inactive_nodes with
    | some node =>
      exact fun n hn => ih _ _ n (List.mem_append.mpr (Or.inl hn))
    | none => exact fun n hn => ih _ _ n hn

theorem drainActivate_hit_mem (a : Nat → List Nat) {ids : List Nat} {id : Nat}
    {nd : NodeData} (hn : ids.Nodup) (hmem : id ∈ ids) (ns : Nodes) (p : List NodeData)
    (hhit : alookup id ns.inactive_nodes = some nd) :
    nd ∈ (drainActivate a ids ns p).2 := by
  induction ids generalizing ns p with
  | nil => exact absurd hmem (List.not_mem_nil _)
  | cons i rest ih =>
    have hrest : rest.Nodup := (List.nodup_cons.mp hn).2
    have hir : i ∉ rest := (List.nodup_cons.mp hn).1
    simp only [drainActivate]
    by_cases hie : i = id
    · subst hie
      rw [hhit]
      exact drainActivate_pending_mono a rest _ _ nd (List.mem_append.mpr (Or.inr (List.mem_singleton.mpr rfl)))
    · have hmr : id ∈ rest := by
        rcases List.mem_cons.mp hmem with h1 | h1
        · exact absurd h1.symm hie
        · exact h1
      cases hl : alookup i ns.inactive_nodes with
      | some node =>
        refine ih hrest hmr _ _ ?_
        rw [alookup_aremove_ne (fun hc => hie hc.symm)]
        exact hhit
      | none => exact ih hrest hmr _ _ hhit

theorem sweepStatuses_no_finished {sts : List (Nat × LoadStatus)}
    (hall : ∀ p ∈ sts, (Prod.snd p).finished = false)
    (loading : List (Nat × NodeData)) (pending : List NodeData) :
    sweepStatuses sts loading pending = .ok (sts, loading, pending) := by
  induction sts with
  | nil => rfl
  | cons pr rest ih =>
    obtain ⟨id, st⟩ := pr
    have hst : st.finished = false := hall (id, st) (List.mem_cons_self _ _)
    simp only [sweepStatuses, hst]
    rw [ih (fun p hp => hall p (List.mem_cons_of_mem _ hp))]
    rfl

instance (tu : TreeUpdate) (ns : Nodes) : Decidable (ValidUpdate tu ns) := by
  unfold ValidUpdate
  infer_instance

instance (ns : Nodes) : Decidable (NodupKeys ns) := by
  unfold NodupKeys
  infer_instance

instance (ns : Nodes) : Decidable (DisjointOwn ns) := by
  unfold DisjointOwn
  infer_instance

instance (ns : Nodes) : Decidable (StatusSync ns) := by
  unfold StatusSync
  infer_instance

instance (ns : Nodes) : Decidable (KeysMatch ns) := by
  unfold KeysMatch
  infer_instance

instance (ns : Nodes) : Decidable (WfState ns) := by
  unfold WfState
  infer_instance

/-- Shared helper: an id drained from `nodes_to_activate` that misses the
inactive cache ends the frame with a freshly loaded in-flight entry in
`loading_nodes` and an unfinished `LoadStatus`. -/
theorem load_path_result {assets : Nat → List Nat} {tu : TreeUpdate} {ns : Nodes}
    {atlas : NodeAtlas} {q : List AtlasCmd}
    {r : TreeUpdate × Nodes × NodeAtlas × List AtlasCmd} {id : Nat}
    (hA : tu.nodes_to_activate.Nodup)
    (hsts : (akeys ns.load_statuses).Nodup)
    (hmem : id ∈ tu.nodes_to_activate)
    (hmiss : alookup id ns.inactive_nodes = none)
    (hok : update_nodes assets tu ns atlas q = .ok r) :
    alookup id r.2.1.loading_nodes = some ⟨id, assets id, none⟩ ∧
    alookup id r.2.1.load_statuses = some ⟨false⟩ := by
  obtain ⟨s, d2, hsw, hdd, hr⟩ := update_nodes_ok_elim hok
  have hmissK : id ∉ akeys ns.inactive_nodes := fun hc => by
    have h1 := alookup_isSome_iff_mem_akeys.mpr hc
    rw [hmiss] at h1
    exact Bool.noConfusion h1
  have hmidl : alookup id (drainActivate assets tu.nodes_to_activate ns []).1.loading_nodes
      = some ⟨id, assets id, none⟩ := by
    rw [drainActivate_alookup_loading assets hA ns [] id]
    simp [hmem, hmissK]
  have hmids : alookup id (drainActivate assets tu.nodes_to_activate ns []).1.load_statuses
      = some ⟨false⟩ := by
    rw [drainActivate_alookup_statuses assets hA ns [] id]
    simp [hmem, hmissK]
  have hmidn : (akeys (drainActivate assets tu.nodes_to_activate ns []).1.load_statuses).Nodup :=
    drainActivate_statuses_nodup assets _ ns [] hsts
  have hsl : alookup id s.2.1 = some ⟨id, assets id, none⟩ := by
    rw [sweepStatuses_alookup_loading hmidn hsw id, hmids,
        show ((some (⟨false⟩ : LoadStatus)).any fun st => st.finished) = false from rfl]
    simp only [Bool.false_eq_true, if_false]
    exact hmidl
  have hss : alookup id s.1 = some ⟨false⟩ := by
    rw [sweepStatuses_statuses hsw]
    exact alookup_filter_of_pass hmids rfl
  obtain ⟨hl3, hs3, hm3⟩ := drainDeactivate_untouched hdd
  have hap := admitPending_untouched s.2.2 ⟨[], [], []⟩ d2.1 d2.2.1 d2.2.2
  constructor
  · rw [hr, hap.1, hl3]
    exact hsl
  · rw [hr, hap.2.2.1, hs3]
    exact hss

/-- C10: if an id in `nodes_to_activate` is already present in
`loading_nodes` (its load is still in flight) and absent from the inactive
cache, `update_nodes` issues a second load: the `loading_nodes` entry is
overwritten with a fresh in-flight `NodeData` and the node's `LoadStatus` is
reset to unfinished — the duplicate request is not deduplicated. -/
theorem C10_inflight_rerequest_overwrites {assets : Nat → List Nat} {tu : TreeUpdate}
    {ns : Nodes} {atlas : NodeAtlas} {q : List AtlasCmd}
    {r : TreeUpdate × Nodes × NodeAtlas × List AtlasCmd} {id : Nat} {dOld : NodeData}
    (hA : tu.nodes_to_activate.Nodup)
    (hsts : (akeys ns.load_statuses).Nodup)
    (hmem : id ∈ tu.nodes_to_activate)
    (hload : alookup id ns.loading_nodes = some dOld)
    (hmiss : alookup id ns.inactive_nodes = none)
    (hok : update_nodes assets tu ns atlas q = .ok r) :
    alookup id r.2.1.loading_nodes = some ⟨id, assets id, none⟩ ∧
    alookup id r.2.1.load_statuses = some ⟨false⟩ :=
  load_path_result hA hsts hmem hmiss hok

/-- Witness for C10: id 4 is mid-load (old entry holds slot 9 and handle
104) and is re-requested; the entry is overwritten by the fresh in-flight
data. -/
theorem C10_inflight_rerequest_overwrites_witness :
    alookup 4 ([(4, (⟨4, [104], none⟩ : NodeData))] : List (Nat × NodeData)) =
        some ⟨4, [104], none⟩ ∧
    alookup 4 ([(4, (⟨false⟩ : LoadStatus))] : List (Nat × LoadStatus)) = some ⟨false⟩ :=
  @C10_inflight_rerequest_overwrites (fun i => [100 + i]) ⟨[], [4], []⟩
    ⟨[(104, 4)], [(4, ⟨false⟩)], [(4, ⟨4, [104], some 9⟩)], [], []⟩ ⟨[]⟩ []
    (⟨[], [], []⟩,
     ⟨[(104, 4)], [(4, ⟨false⟩)], [(4, ⟨4, [104], none⟩)], [], []⟩, ⟨[]⟩, [])
    4 ⟨4, [104], some 9⟩
    (by decide) (by decide) (by decide) (by decide) (by decide) rfl

/-- Counterexample for C4: node 5 is active (slot 0) and the same
`TreeUpdate` lists it both in `nodes_to_activate` and `nodes_to_deactivate`.
Because activations are drained **before** deactivations, the activation is a
cache miss: a load is issued (5 enters `loading_nodes`, a status and a
handle mapping are created), 5 is moved to `inactive_nodes`, and it does
**not** re-enter `active_nodes` this frame — contradicting the claim that it
is served from `inactive_nodes` with no load. -/
theorem C4_counterexample :
    update_nodes (fun i => [100 + i]) ⟨[], [5], [5]⟩
        ⟨[], [], [], [], [(5, ⟨5, [105], some 0⟩)]⟩ ⟨[]⟩ [] =
      .ok (⟨[], [], []⟩,
           ⟨[(105, 5)], [(5, ⟨false⟩)], [(5, ⟨5, [105], none⟩)],
            [(5, ⟨5, [105], none⟩)], []⟩,
           ⟨[0]⟩, [AtlasCmd.free 0]) := rfl

/-- C4 (amended): if one `TreeUpdate` lists a currently active id in both
`nodes_to_deactivate` and `nodes_to_activate`, the activation is drained
first and — the id not yet being in `inactive_nodes` — is treated as a cache
miss: a load is issued (the id enters `loading_nodes` with a fresh in-flight
`NodeData` and an unfinished status), the deactivation then moves the node
into `inactive_nodes`, and the id neither re-enters `active_nodes` nor
appears in `activated_nodes` that frame. -/
theorem C4_amended {assets : Nat → List Nat} {tu : TreeUpdate} {ns : Nodes}
    {atlas : NodeAtlas} {q : List AtlasCmd}
    {r : TreeUpdate × Nodes × NodeAtlas × List AtlasCmd} {id : Nat}
    (hA : tu.nodes_to_activate.Nodup)
    (hD : tu.nodes_to_deactivate.Nodup)
    (hsts : (akeys ns.load_statuses).Nodup)
    (hkmL : ∀ p ∈ ns.loading_nodes, (Prod.snd p).id = p.1)
    (hkmI : ∀ p ∈ ns.inactive_nodes, (Prod.snd p).id = p.1)
    (hmemA : id ∈ tu.nodes_to_activate)
    (hmemD : id ∈ tu.nodes_to_deactivate)
    (hactive : id ∈ akeys ns.active_nodes)
    (hmiss : alookup id ns.inactive_nodes = none)
    (hok : update_nodes assets tu ns atlas q = .ok r) :
    alookup id r.2.1.loading_nodes = some ⟨id, assets id, none⟩ ∧
    alookup id r.2.1.load_statuses = some ⟨false⟩ ∧
    id ∈ akeys r.2.1.inactive_nodes ∧
    id ∉ akeys r.2.1.active_nodes ∧
    id ∉ r.1.activated_nodes := by
  obtain ⟨hload, hstatus⟩ := load_path_result hA hsts hmemA hmiss hok
  obtain ⟨s, d2, hsw, hdd, hr⟩ := update_nodes_ok_elim hok
  have hmissK : id ∉ akeys ns.inactive_nodes := fun hc => by
    have h1 := alookup_isSome_iff_mem_akeys.mpr hc
    rw [hmiss] at h1
    exact Bool.noConfusion h1
  have hactL : (alookup id ns.active_nodes).isSome :=
    alookup_isSome_iff_mem_akeys.mpr hactive
  have hap := admitPending_untouched s.2.2 ⟨[], [], []⟩ d2.1 d2.2.1 d2.2.2
  -- the pending queue cannot contain a node with this id
  have hnotpend : id ∉ s.2.2.map NodeData.id := by
    intro hc
    rcases List.mem_map.mp hc with ⟨n, hn, hnid⟩
    rcases sweepStatuses_pending_src hsw n hn with hp | ⟨pr, hpr, hfin, hla⟩
    · rcases drainActivate_pending_src assets ns [] hkmI n hp with hemp | ⟨hni, hla⟩
      · exact absurd hemp (List.not_mem_nil _)
      · rw [hnid] at hla
        rw [hmiss] at hla
        exact Option.noConfusion hla
    · have hkmmid := drainActivate_loading_keysmatch assets tu.nodes_to_activate ns [] hkmL
      have hprid : n.id = pr.1 := hkmmid (pr.1, n) (alookup_some_mem hla)
      have hmids : alookup id
          (drainActivate assets tu.nodes_to_activate ns []).1.load_statuses = some ⟨false⟩ := by
        rw [drainActivate_alookup_statuses assets hA ns [] id]
        simp [hmemA, hmissK]
      have hmidn : (akeys (drainActivate assets tu.nodes_to_activate ns []).1.load_statuses).Nodup :=
        drainActivate_statuses_nodup assets _ ns [] hsts
      have hpr1 : pr.1 = id := by rw [← hprid, hnid]
      have hlook : alookup pr.1
          (drainActivate assets tu.nodes_to_activate ns []).1.load_statuses = some pr.2 :=
        alookup_of_mem_nodup hmidn (by
          rw [show ((pr.1, pr.2) : Nat × LoadStatus) = pr by rfl]
          exact hpr)
      rw [hpr1, hmids] at hlook
      have : pr.2 = ⟨false⟩ := by injection hlook with h1; exact h1.symm
      rw [this] at hfin
      exact Bool.noConfusion hfin
  refine ⟨hload, hstatus, ?_, ?_, ?_⟩
  · -- moved to inactive_nodes by the deactivation drain
    rw [hr, hap.2.1]
    have hdd2 := drainDeactivate_alookup_inactive hD hdd id
    rw [if_pos hmemD] at hdd2
    have hact3 : (drainActivate assets tu.nodes_to_activate ns []).1.active_nodes =
        ns.active_nodes := drainActivate_active assets _ ns []
    simp only [] at hdd2
    rw [hact3] at hdd2
    rw [← alookup_isSome_iff_mem_akeys, hdd2]
    rcases Option.isSome_iff_exists.mp hactL with ⟨nd, hnd⟩
    rw [hnd]
    rfl
  · -- not re-admitted into active_nodes
    rw [hr]
    rw [admitPending_mem_active s.2.2 ⟨[], [], []⟩ d2.1 d2.2.1 d2.2.2 id]
    rintro (hc | hc)
    · exact hnotpend hc
    · have hdd1 := drainDeactivate_alookup_active hD hdd id
      rw [if_pos hmemD] at hdd1
      have h1 := alookup_isSome_iff_mem_akeys.mpr hc
      rw [hdd1] at h1
      exact Bool.noConfusion h1
  · -- not recorded as activated
    rw [hr]
    rw [admitPending_mem_activated s.2.2 ⟨[], [], []⟩ d2.1 d2.2.1 d2.2.2 id]
    rintro (hc | hc)
    · exact hnotpend hc
    · exact absurd hc (List.not_mem_nil _)

/-- Witness for the amended C4 at the counterexample input: node 5 active
with slot 0, activated and deactivated in the same frame. -/
theorem C4_amended_witness :
    alookup 5 ([(5, (⟨5, [105], none⟩ : NodeData))] : List (Nat × NodeData)) =
        some ⟨5, [105], none⟩ ∧
    alookup 5 ([(5, (⟨false⟩ : LoadStatus))] : List (Nat × LoadStatus)) = some ⟨false⟩ ∧
    5 ∈ akeys ([(5, (⟨5, [105], none⟩ : NodeData))] : List (Nat × NodeData)) ∧
    5 ∉ akeys ([] : List (Nat × NodeData)) ∧
    5 ∉ ([] : List Nat) :=
  @C4_amended (fun i => [100 + i]) ⟨[], [5], [5]⟩
    ⟨[], [], [], [], [(5, ⟨5, [105], some 0⟩)]⟩ ⟨[]⟩ []
    (⟨[], [], []⟩,
     ⟨[(105, 5)], [(5, ⟨false⟩)], [(5, ⟨5, [105], none⟩)],
      [(5, ⟨5, [105], none⟩)], []⟩,
     ⟨[0]⟩, [AtlasCmd.free 0])
    5 (by decide) (by decide) (by decide) (by decide) (by decide) (by decide)
    (by decide) (by decide) (by decide) rfl

/-- C9: during `update_nodes`, every status-table entry that is finished at
sweep time (after the activation drain) is removed together with its
`loading_nodes` entry and its node is recorded as activated, every
unfinished entry is retained, and afterwards no remaining `load_statuses`
entry is finished. -/
theorem C9_finished_sweep {assets : Nat → List Nat} {tu : TreeUpdate} {ns : Nodes}
    {atlas : NodeAtlas} {q : List AtlasCmd}
    {r : TreeUpdate × Nodes × NodeAtlas × List AtlasCmd}
    (hsts : (akeys ns.load_statuses).Nodup)
    (hkmL : ∀ p ∈ ns.loading_nodes, (Prod.snd p).id = p.1)
    (hok : update_nodes assets tu ns atlas q = .ok r) :
    (∀ p ∈ r.2.1.load_statuses, (Prod.snd p).finished = false) ∧
    (∀ id st,
      alookup id (drainActivate assets tu.nodes_to_activate ns []).1.load_statuses = some st →
      st.finished = true →
      id ∉ akeys r.2.1.loading_nodes ∧ id ∈ r.1.activated_nodes) ∧
    (∀ p ∈ (drainActivate assets tu.nodes_to_activate ns []).1.load_statuses,
      (Prod.snd p).finished = false → p ∈ r.2.1.load_statuses) := by
  obtain ⟨s, d2, hsw, hdd, hr⟩ := update_nodes_ok_elim hok
  have hmidn : (akeys (drainActivate assets tu.nodes_to_activate ns []).1.load_statuses).Nodup :=
    drainActivate_statuses_nodup assets _ ns [] hsts
  have hkmmid := drainActivate_loading_keysmatch assets tu.nodes_to_activate ns [] hkmL
  have hap := admitPending_untouched s.2.2 ⟨[], [], []⟩ d2.1 d2.2.1 d2.2.2
  have hstspost : r.2.1.load_statuses = s.1 := by
    rw [hr, hap.2.2.1, (drainDeactivate_untouched hdd).2.1]
  have hloadpost : r.2.1.loading_nodes = s.2.1 := by
    rw [hr, hap.1, (drainDeactivate_untouched hdd).1]
  refine ⟨?_, ?_, ?_⟩
  · intro p hp
    rw [hstspost, sweepStatuses_statuses hsw] at hp
    have := (List.mem_filter.mp hp).2
    simpa using this
  · intro id st hst hfin
    constructor
    · rw [hloadpost]
      intro hc
      have h1 := alookup_isSome_iff_mem_akeys.mpr hc
      rw [sweepStatuses_alookup_loading hmidn hsw id, hst] at h1
      simp only [Option.any_some, hfin, if_true] at h1
      exact Bool.noConfusion h1
    · have hmem : (id, st) ∈ (drainActivate assets tu.nodes_to_activate ns []).1.load_statuses :=
        alookup_some_mem hst
      rcases sweepStatuses_finished_queued hmidn hsw (id, st) hmem hfin with ⟨n, hla, hmem22⟩
      have hnid : n.id = id := hkmmid (id, n) (alookup_some_mem hla)
      rw [hr, admitPending_mem_activated s.2.2 ⟨[], [], []⟩ d2.1 d2.2.1 d2.2.2 id]
      exact Or.inl (List.mem_map.mpr ⟨n, hmem22, hnid⟩)
  · intro p hp hfin
    rw [hstspost, sweepStatuses_statuses hsw]
    refine List.mem_filter.mpr ⟨hp, ?_⟩
    simp [hfin]

/-- Witness for C9: node 3's load is finished and node 4's is not; after the
frame, 3 is out of `loading_nodes` and recorded activated, 4's unfinished
entry is retained. -/
theorem C9_finished_sweep_witness :
    (((4 : Nat), (⟨false⟩ : LoadStatus)).2.finished = false) ∧
    (3 ∉ akeys ([(4, (⟨4, [104], none⟩ : NodeData))] : List (Nat × NodeData)) ∧
      3 ∈ ([3] : List Nat)) ∧
    ((4, (⟨false⟩ : LoadStatus)) ∈ ([(4, (⟨false⟩ : LoadStatus))] : List (Nat × LoadStatus))) := by
  have h := @C9_finished_sweep (fun i => [100 + i]) ⟨[], [], []⟩
    ⟨[], [(3, ⟨true⟩), (4, ⟨false⟩)],
     [(3, ⟨3, [103], none⟩), (4, ⟨4, [104], none⟩)], [], []⟩ ⟨[7]⟩ []
    (⟨[3], [], []⟩,
     ⟨[], [(4, ⟨false⟩)], [(4, ⟨4, [104], none⟩)], [], [(3, ⟨3, [103], some 7⟩)]⟩,
     ⟨[]⟩, [AtlasCmd.assign 7 3])
    (by decide) (by decide) rfl
  exact ⟨h.1 (4, ⟨false⟩) (by decide), h.2.1 3 ⟨true⟩ rfl rfl, h.2.2 (4, ⟨false⟩) (by decide) rfl⟩

/-- C8: `update_nodes` fails (the model's `Except.error`, standing for the
source's `unwrap` panics) exactly when the sequential sweep finds a finished
status with no matching `loading_nodes` entry, or the sequential deactivation
drain finds an id not present in `active_nodes`; when neither situation
arises it cannot fail. -/
theorem C8_failure_modes (assets : Nat → List Nat) (tu : TreeUpdate) (ns : Nodes)
    (atlas : NodeAtlas) (q : List AtlasCmd) :
    (∃ e, update_nodes assets tu ns atlas q = .error e) ↔
      (sweepOkB (drainActivate assets tu.nodes_to_activate ns []).1.load_statuses
          (drainActivate assets tu.nodes_to_activate ns []).1.loading_nodes = false ∨
       deactOkB tu.nodes_to_deactivate ns.active_nodes = false) := by
  have h := update_nodes_ok_iff assets tu ns atlas q
  cases hu : update_nodes assets tu ns atlas q with
  | ok r =>
    constructor
    · rintro ⟨e, he⟩
      exact Except.noConfusion he
    · intro hcase
      rw [hu] at h
      simp only [exceptOk] at h
      rcases hcase with hc | hc <;> rw [hc] at h <;> simp at h
  | error e =>
    rw [hu] at h
    simp only [exceptOk] at h
    constructor
    · intro _
      cases hswb : sweepOkB (drainActivate assets tu.nodes_to_activate ns []).1.load_statuses
          (drainActivate assets tu.nodes_to_activate ns []).1.loading_nodes with
      | false => exact Or.inl rfl
      | true =>
        cases hdb : deactOkB tu.nodes_to_deactivate ns.active_nodes with
        | false => exact Or.inr rfl
        | true =>
          rw [hswb, hdb] at h
          exact absurd h.symm (by simp)
    · intro _
      exact ⟨e, rfl⟩

/-- Counterexample for C2: with atlas capacity 1 (one free slot, no active
nodes) a reachable state holds two finished loads; `update_nodes` admits both
— one of them without a slot — so `active_nodes` ends with 2 entries,
exceeding the capacity. (The pre-state is reached from the empty initial
state by one valid frame requesting ids 1 and 2 and two asset-ready
notifications.) -/
theorem C2_counterexample :
    Reachable (fun i => [100 + i])
        ⟨[], [(2, ⟨true⟩), (1, ⟨true⟩)],
         [(2, ⟨2, [102], none⟩), (1, ⟨1, [101], none⟩)], [], []⟩ ⟨[0]⟩ ∧
    update_nodes (fun i => [100 + i]) ⟨[], [], []⟩
        ⟨[], [(2, ⟨true⟩), (1, ⟨true⟩)],
         [(2, ⟨2, [102], none⟩), (1, ⟨1, [101], none⟩)], [], []⟩ ⟨[0]⟩ [] =
      .ok (⟨[1, 2], [], []⟩,
           ⟨[], [], [], [], [(1, ⟨1, [101], none⟩), (2, ⟨2, [102], some 0⟩)]⟩,
           ⟨[]⟩, [AtlasCmd.assign 0 2]) ∧
    ([(1, (⟨1, [101], none⟩ : NodeData)), (2, ⟨2, [102], some 0⟩)] :
        List (Nat × NodeData)).length = 2 ∧
    (⟨[0]⟩ : NodeAtlas).available_ids.length = 1 := by
  refine ⟨?_, rfl, rfl, rfl⟩
  have h0 : Reachable (fun i => [100 + i]) ⟨[], [], [], [], []⟩ ⟨[0]⟩ :=
    Reachable.init [0]
  have h1 : Reachable (fun i => [100 + i])
      ⟨[(102, 2), (101, 1)], [(2, ⟨false⟩), (1, ⟨false⟩)],
       [(2, ⟨2, [102], none⟩), (1, ⟨1, [101], none⟩)], [], []⟩ ⟨[0]⟩ :=
    @Reachable.frame (fun i => [100 + i]) ⟨[], [], [], [], []⟩ ⟨[0]⟩
      ⟨[], [1, 2], []⟩ []
      (⟨[], [], []⟩,
       ⟨[(102, 2), (101, 1)], [(2, ⟨false⟩), (1, ⟨false⟩)],
        [(2, ⟨2, [102], none⟩), (1, ⟨1, [101], none⟩)], [], []⟩, ⟨[0]⟩, [])
      h0 (by decide) rfl
  have h2 : Reachable (fun i => [100 + i])
      ⟨[(102, 2)], [(1, ⟨true⟩), (2, ⟨false⟩)],
       [(2, ⟨2, [102], none⟩), (1, ⟨1, [101], none⟩)], [], []⟩ ⟨[0]⟩ :=
    @Reachable.asset (fun i => [100 + i])
      ⟨[(102, 2), (101, 1)], [(2, ⟨false⟩), (1, ⟨false⟩)],
       [(2, ⟨2, [102], none⟩), (1, ⟨1, [101], none⟩)], [], []⟩
      ⟨[(102, 2)], [(1, ⟨true⟩), (2, ⟨false⟩)],
       [(2, ⟨2, [102], none⟩), (1, ⟨1, [101], none⟩)], [], []⟩
      ⟨[0]⟩ 101 h1 rfl
  exact @Reachable.asset (fun i => [100 + i])
      ⟨[(102, 2)], [(1, ⟨true⟩), (2, ⟨false⟩)],
       [(2, ⟨2, [102], none⟩), (1, ⟨1, [101], none⟩)], [], []⟩
      ⟨[], [(2, ⟨true⟩), (1, ⟨true⟩)],
       [(2, ⟨2, [102], none⟩), (1, ⟨1, [101], none⟩)], [], []⟩
      ⟨[0]⟩ 102 h2 rfl

/-- C2 (amended): the number of `active_nodes` entries after `update_nodes`
is bounded by the previous count plus this frame's queued work (drained
activation ids plus already-finished statuses); hence the capacity bound
`|active_nodes| ≤ C` holds after the call **provided** that budget does not
exceed C — it is not unconditional, because admission inserts every queued
node regardless of free slots. -/
theorem C2_capacity_bound_conditional {assets : Nat → List Nat} {tu : TreeUpdate}
    {ns : Nodes} {atlas : NodeAtlas} {q : List AtlasCmd}
    {r : TreeUpdate × Nodes × NodeAtlas × List AtlasCmd} {C : Nat}
    (hok : update_nodes assets tu ns atlas q = .ok r)
    (hbound : ns.active_nodes.length + tu.nodes_to_activate.length +
        countFinished ns.load_statuses ≤ C) :
    r.2.1.active_nodes.length ≤ C := by
  obtain ⟨s, d2, hsw, hdd, hr⟩ := update_nodes_ok_elim hok
  have h1 : r.2.1.active_nodes.length ≤ d2.1.active_nodes.length + s.2.2.length := by
    rw [hr]
    exact admitPending_active_length _ _ _ _ _
  have hact3 : (drainActivate assets tu.nodes_to_activate ns []).1.active_nodes =
      ns.active_nodes := drainActivate_active assets _ ns []
  have h2 : d2.1.active_nodes.length ≤ ns.active_nodes.length := by
    have h2a := drainDeactivate_active_length hdd
    simp only [] at h2a
    rw [hact3] at h2a
    exact h2a
  have h3 := sweepStatuses_pending_length hsw
  have h4 := drainActivate_pending_length assets tu.nodes_to_activate ns []
  have h5 := drainActivate_countFinished assets tu.nodes_to_activate ns []
  simp only [List.length_nil] at h4
  omega

/-- Witness for the amended C2: two finished loads admitted with capacity 2
(two free slots) stay within the bound. -/
theorem C2_capacity_bound_conditional_witness :
    ([(1, (⟨1, [101], some 1⟩ : NodeData)), (2, ⟨2, [102], some 0⟩)] :
        List (Nat × NodeData)).length ≤ 2 :=
  @C2_capacity_bound_conditional (fun i => [100 + i]) ⟨[], [], []⟩
    ⟨[], [(2, ⟨true⟩), (1, ⟨true⟩)],
     [(2, ⟨2, [102], none⟩), (1, ⟨1, [101], none⟩)], [], []⟩ ⟨[0, 1]⟩ []
    (⟨[1, 2], [], []⟩,
     ⟨[], [], [], [], [(1, ⟨1, [101], some 1⟩), (2, ⟨2, [102], some 0⟩)]⟩,
     ⟨[]⟩, [AtlasCmd.assign 0 2, AtlasCmd.assign 1 1])
    2 rfl (by decide)

/-- C1: `update_nodes` executes the five lifecycle steps in the fixed order
(1) clear `activated_nodes`, (2) drain `nodes_to_activate` (left empty),
(3) sweep `load_statuses`, (4) drain `nodes_to_deactivate` (left empty)
freeing atlas slots, (5) admit the queued activations — stated as the
equality with the five-step pipeline — and, because step 4 precedes step 5,
a slot freed by this frame's deactivation is available to the same frame's
activations: with an exhausted atlas, deactivating `b` (slot `s0`) lets the
cached node `a` be admitted into that very slot in the same call. -/
theorem C1_fixed_order_and_slot_reuse :
    (∀ (assets : Nat → List Nat) (tu : TreeUpdate) (ns : Nodes) (atlas : NodeAtlas)
        (q : List AtlasCmd),
      update_nodes assets tu ns atlas q =
        (let tu1 : TreeUpdate := { tu with activated_nodes := [] }
         let d := drainActivate assets tu1.nodes_to_activate ns []
         let tu2 : TreeUpdate := { tu1 with nodes_to_activate := [] }
         match sweepStatuses d.1.load_statuses d.1.loading_nodes d.2 with
         | .error e => .error e
         | .ok s =>
           let ns3 : Nodes := { d.1 with load_statuses := s.1, loading_nodes := s.2.1 }
           let tu3 : TreeUpdate := { tu2 with nodes_to_deactivate := [] }
           match drainDeactivate tu2.nodes_to_deactivate ns3 atlas q with
           | .error e => .error e
           | .ok r2 => .ok (admitPending s.2.2 tu3 r2.1 r2.2.1 r2.2.2))) ∧
    (∀ (assets : Nat → List Nat) (tu : TreeUpdate) (ns : Nodes) (atlas : NodeAtlas)
        (q : List AtlasCmd) (a b s0 : Nat) (na nb : NodeData),
      tu.nodes_to_activate = [a] →
      tu.nodes_to_deactivate = [b] →
      alookup a ns.inactive_nodes = some na →
      alookup b ns.active_nodes = some nb →
      nb.atlasId = some s0 →
      atlas.available_ids = [] →
      (∀ p ∈ ns.load_statuses, (Prod.snd p).finished = false) →
      ∃ r, update_nodes assets tu ns atlas q = .ok r ∧
        alookup na.id r.2.1.active_nodes = some { na with atlasId := some s0 } ∧
        na.id ∈ r.1.activated_nodes) := by
  constructor
  · intro assets tu ns atlas q
    rfl
  · intro assets tu ns atlas q a b s0 na nb htA htD hina hactb hslot hatl hnofin
    have hstep : update_nodes assets tu ns atlas q =
        .ok ({ activated_nodes := [na.id], nodes_to_activate := [],
               nodes_to_deactivate := [] },
             { handle_mapping := ns.handle_mapping,
               load_statuses := ns.load_statuses,
               loading_nodes := ns.loading_nodes,
               inactive_nodes :=
                 ainsert b ⟨nb.id, nb.handles, none⟩ (aremove a ns.inactive_nodes),
               active_nodes :=
                 ainsert na.id { na with atlasId := some s0 } (aremove b ns.active_nodes) },
             ⟨[]⟩,
             (q ++ [AtlasCmd.free s0]) ++ [AtlasCmd.assign s0 na.id]) := by
      simp only [update_nodes, htA, htD, drainActivate, hina]
      rw [sweepStatuses_no_finished hnofin]
      simp only [drainDeactivate, hactb]
      have hrn : NodeAtlas.remove_node atlas nb q =
          (⟨[s0]⟩, ⟨nb.id, nb.handles, none⟩, q ++ [AtlasCmd.free s0]) := by
        cases nb with
        | mk nid nh natl =>
          cases atlas with
          | mk av =>
            simp only at hslot
            have hav : av = [] := hatl
            subst hav
            simp only [NodeAtlas.remove_node, hslot]
      rw [hrn]
      simp only [drainDeactivate, admitPending, NodeAtlas.add_node, sinsert]
      rfl
    refine ⟨_, hstep, ?_, ?_⟩
    · exact alookup_ainsert_self _ _ _
    · exact List.mem_singleton.mpr rfl

/-- Witness for C1 (slot-reuse part): with no free slots, deactivating node 9
(slot 3) and activating cached node 8 in the same frame gives node 8 slot 3. -/
theorem C1_fixed_order_and_slot_reuse_witness :
    ∃ r, update_nodes (fun i => [100 + i]) ⟨[7], [8], [9]⟩
        ⟨[], [(4, ⟨false⟩)], [(4, ⟨4, [104], none⟩)],
         [(8, ⟨8, [108], none⟩)], [(9, ⟨9, [109], some 3⟩)]⟩ ⟨[]⟩ [] = .ok r ∧
      alookup (NodeData.id ⟨8, [108], none⟩) r.2.1.active_nodes =
        some { (⟨8, [108], none⟩ : NodeData) with atlasId := some 3 } ∧
      NodeData.id ⟨8, [108], none⟩ ∈ r.1.activated_nodes :=
  C1_fixed_order_and_slot_reuse.2 (fun i => [100 + i]) ⟨[7], [8], [9]⟩
    ⟨[], [(4, ⟨false⟩)], [(4, ⟨4, [104], none⟩)],
     [(8, ⟨8, [108], none⟩)], [(9, ⟨9, [109], some 3⟩)]⟩ ⟨[]⟩ []
    8 9 3 ⟨8, [108], none⟩ ⟨9, [109], some 3⟩
    rfl rfl rfl rfl rfl rfl (by decide)

/-- Shared helper: an id drained from `nodes_to_activate` that hits the
inactive cache is activated this frame without touching `loading_nodes` or
`load_statuses`, and leaves the cache. -/
theorem cache_hit_result {assets : Nat → List Nat} {tu : TreeUpdate} {ns : Nodes}
    {atlas : NodeAtlas} {q : List AtlasCmd}
    {r : TreeUpdate × Nodes × NodeAtlas × List AtlasCmd} {id : Nat} {nd : NodeData}
    (hA : tu.nodes_to_activate.Nodup)
    (hD : tu.nodes_to_deactivate.Nodup)
    (hsts : (akeys ns.load_statuses).Nodup)
    (hkmI : ∀ p ∈ ns.inactive_nodes, (Prod.snd p).id = p.1)
    (hmem : id ∈ tu.nodes_to_activate)
    (hhit : alookup id ns.inactive_nodes = some nd)
    (hnl : alookup id ns.loading_nodes = none)
    (hns : alookup id ns.load_statuses = none)
    (hnd : id ∉ tu.nodes_to_deactivate)
    (hok : update_nodes assets tu ns atlas q = .ok r) :
    id ∈ r.1.activated_nodes ∧ id ∈ akeys r.2.1.active_nodes ∧
    id ∉ akeys r.2.1.loading_nodes ∧ id ∉ akeys r.2.1.load_statuses ∧
    id ∉ akeys r.2.1.inactive_nodes := by
  obtain ⟨s, d2, hsw, hdd, hr⟩ := update_nodes_ok_elim hok
  have hndid : nd.id = id := hkmI (id, nd) (alookup_some_mem hhit)
  have hhitK : id ∈ akeys ns.inactive_nodes :=
    alookup_isSome_iff_mem_akeys.mp (by rw [hhit]; rfl)
  have hmidn : (akeys (drainActivate assets tu.nodes_to_activate ns []).1.load_statuses).Nodup :=
    drainActivate_statuses_nodup assets _ ns [] hsts
  have hpend : nd ∈ (drainActivate assets tu.nodes_to_activate ns []).2 :=
    drainActivate_hit_mem assets hA hmem ns [] hhit
  have hpend2 : nd ∈ s.2.2 := sweepStatuses_pending_mono hsw nd hpend
  have hap := admitPending_untouched s.2.2 ⟨[], [], []⟩ d2.1 d2.2.1 d2.2.2
  have hmidl : alookup id (drainActivate assets tu.nodes_to_activate ns []).1.loading_nodes
      = none := by
    rw [drainActivate_alookup_loading assets hA ns [] id]
    simp [hhitK, hnl]
  have hmids : alookup id (drainActivate assets tu.nodes_to_activate ns []).1.load_statuses
      = none := by
    rw [drainActivate_alookup_statuses assets hA ns [] id]
    simp [hhitK, hns]
  refine ⟨?_, ?_, ?_, ?_, ?_⟩
  · rw [hr, admitPending_mem_activated s.2.2 ⟨[], [], []⟩ d2.1 d2.2.1 d2.2.2 id]
    exact Or.inl (List.mem_map.mpr ⟨nd, hpend2, hndid⟩)
  · rw [hr, admitPending_mem_active s.2.2 ⟨[], [], []⟩ d2.1 d2.2.1 d2.2.2 id]
    exact Or.inl (List.mem_map.mpr ⟨nd, hpend2, hndid⟩)
  · have hlp : r.2.1.loading_nodes = s.2.1 := by
      rw [hr, hap.1, (drainDeactivate_untouched hdd).1]
    rw [hlp, ← alookup_eq_none_iff_not_mem_akeys,
        sweepStatuses_alookup_loading hmidn hsw id, hmids]
    simp only [Option.any_none, Bool.false_eq_true, if_false]
    exact hmidl
  · have hsp : r.2.1.load_statuses = s.1 := by
      rw [hr, hap.2.2.1, (drainDeactivate_untouched hdd).2.1]
    rw [hsp, sweepStatuses_statuses hsw]
    intro hc
    rcases mem_akeys_filter.mp hc with ⟨v, hv, _⟩
    have h1 : id ∈ akeys (drainActivate assets tu.nodes_to_activate ns []).1.load_statuses :=
      List.mem_map.mpr ⟨(id, v), hv, rfl⟩
    have h2 := alookup_isSome_iff_mem_akeys.mpr h1
    rw [hmids] at h2
    exact Bool.noConfusion h2
  · have hip : r.2.1.inactive_nodes = d2.1.inactive_nodes := by
      rw [hr, hap.2.1]
    rw [hip, ← alookup_eq_none_iff_not_mem_akeys]
    have hdd2 := drainDeactivate_alookup_inactive hD hdd id
    rw [if_neg hnd] at hdd2
    simp only [] at hdd2
    rw [hdd2, drainActivate_alookup_inactive assets ns [] id, if_pos hmem]

/-- Shared helper: a frame whose tree update never mentions an id leaves that
id's inactive-cache entry unchanged and does not put it in flight. -/
theorem frame_preserves_cached {assets : Nat → List Nat} {tu : TreeUpdate} {ns : Nodes}
    {atlas : NodeAtlas} {q : List AtlasCmd}
    {r : TreeUpdate × Nodes × NodeAtlas × List AtlasCmd} {id : Nat}
    (hnA : id ∉ tu.nodes_to_activate) (hnD : id ∉ tu.nodes_to_deactivate)
    (hok : update_nodes assets tu ns atlas q = .ok r) :
    alookup id r.2.1.inactive_nodes = alookup id ns.inactive_nodes ∧
    (alookup id ns.loading_nodes = none → alookup id r.2.1.loading_nodes = none) := by
  obtain ⟨s, d2, hsw, hdd, hr⟩ := update_nodes_ok_elim hok
  have hap := admitPending_untouched s.2.2 ⟨[], [], []⟩ d2.1 d2.2.1 d2.2.2
  constructor
  · have hip : r.2.1.inactive_nodes = d2.1.inactive_nodes := by
      rw [hr, hap.2.1]
    rw [hip, drainDeactivate_alookup_inactive_not_mem hnD hdd]
    simp only []
    rw [drainActivate_alookup_inactive assets ns [] id, if_neg hnA]
  · intro hnl
    have hlp : r.2.1.loading_nodes = s.2.1 := by
      rw [hr, hap.1, (drainDeactivate_untouched hdd).1]
    have hmidl : alookup id
        (drainActivate assets tu.nodes_to_activate ns []).1.loading_nodes = none := by
      rw [drainActivate_alookup_loading_not_mem assets hnA ns []]
      exact hnl
    rw [hlp, alookup_eq_none_iff_not_mem_akeys]
    intro hc
    have h1 := alookup_isSome_iff_mem_akeys.mpr hc
    rcases Option.isSome_iff_exists.mp h1 with ⟨v, hv⟩
    have hmem : (id, v) ∈ s.2.1 := alookup_some_mem hv
    have hmem2 := sweepStatuses_loading_sub hsw (id, v) hmem
    have h2 : id ∈ akeys (drainActivate assets tu.nodes_to_activate ns []).1.loading_nodes :=
      List.mem_map.mpr ⟨(id, v), hmem2, rfl⟩
    have h3 := alookup_isSome_iff_mem_akeys.mpr h2
    rw [hmidl] at h3
    exact Bool.noConfusion h3

/-- Shared helper: across any run of frames none of which mentions the id,
the cached entry survives verbatim and the id never enters `loading_nodes`. -/
theorem runFrames_preserves_cached {assets : Nat → List Nat} {frames : List TreeUpdate}
    {ns : Nodes} {atlas : NodeAtlas} {q : List AtlasCmd}
    {w : Nodes × NodeAtlas × List AtlasCmd} {id : Nat}
    (hall : ∀ tu' ∈ frames, id ∉ tu'.nodes_to_activate ∧ id ∉ tu'.nodes_to_deactivate)
    (hok : runFrames assets frames ns atlas q = .ok w) :
    alookup id w.1.inactive_nodes = alookup id ns.inactive_nodes ∧
    (alookup id ns.loading_nodes = none → alookup id w.1.loading_nodes = none) := by
  induction frames generalizing ns atlas q w with
  | nil =>
    simp only [runFrames] at hok
    injection hok with h
    rw [← h]
    exact ⟨rfl, fun h1 => h1⟩
  | cons tu' rest ih =>
    simp only [runFrames] at hok
    cases hu : update_nodes assets tu' ns atlas q with
    | error e =>
      rw [hu] at hok
      exact Except.noConfusion hok
    | ok r =>
      rw [hu] at hok
      have hfirst := frame_preserves_cached
        (hall tu' (List.mem_cons_self _ _)).1 (hall tu' (List.mem_cons_self _ _)).2 hu
      have hrest := ih (fun t ht => hall t (List.mem_cons_of_mem _ ht)) hok
      refine ⟨?_, ?_⟩
      · rw [hrest.1, hfirst.1]
      · intro h1
        exact hrest.2 (hfirst.2 h1)

/-- C5: per-id dichotomy of the activation drain, and cross-frame cache
reuse. (1) An id present in the inactive cache is activated this frame —
removed from the cache, recorded in `activated_nodes`, inserted into
`active_nodes` — without entering `loading_nodes` and without creating a
`LoadStatus`. (2) An id missing from the cache gets a load: a fresh
in-flight `NodeData` in `loading_nodes`, an unfinished `LoadStatus`, and its
asset handles registered in `handle_mapping`. (3) Across later frames that
never mention the id, the cached entry survives verbatim and the id never
enters `loading_nodes`. (4) Hence a node cached at frame T and re-requested
at frame T+k with no intervening request is reactivated from the cache
without re-entering `loading_nodes`. -/
theorem C5_drain_dichotomy_cache_reuse :
    (∀ (assets : Nat → List Nat) (tu : TreeUpdate) (ns : Nodes) (atlas : NodeAtlas)
        (q : List AtlasCmd) (r : TreeUpdate × Nodes × NodeAtlas × List AtlasCmd)
        (id : Nat) (nd : NodeData),
      tu.nodes_to_activate.Nodup → tu.nodes_to_deactivate.Nodup →
      (akeys ns.load_statuses).Nodup →
      (∀ p ∈ ns.inactive_nodes, (Prod.snd p).id = p.1) →
      id ∈ tu.nodes_to_activate →
      alookup id ns.inactive_nodes = some nd →
      alookup id ns.loading_nodes = none →
      alookup id ns.load_statuses = none →
      id ∉ tu.nodes_to_deactivate →
      update_nodes assets tu ns atlas q = .ok r →
      id ∈ r.1.activated_nodes ∧ id ∈ akeys r.2.1.active_nodes ∧
        id ∉ akeys r.2.1.loading_nodes ∧ id ∉ akeys r.2.1.load_statuses ∧
        id ∉ akeys r.2.1.inactive_nodes) ∧
    (∀ (assets : Nat → List Nat) (tu : TreeUpdate) (ns : Nodes) (atlas : NodeAtlas)
        (q : List AtlasCmd) (r : TreeUpdate × Nodes × NodeAtlas × List AtlasCmd)
        (id : Nat),
      tu.nodes_to_activate.Nodup →
      (akeys ns.load_statuses).Nodup →
      id ∈ tu.nodes_to_activate →
      alookup id ns.inactive_nodes = none →
      update_nodes assets tu ns atlas q = .ok r →
      alookup id r.2.1.loading_nodes = some ⟨id, assets id, none⟩ ∧
        alookup id r.2.1.load_statuses = some ⟨false⟩ ∧
        (∀ hh ∈ assets id,
          (∀ i ∈ tu.nodes_to_activate, i ≠ id → hh ∉ assets i) →
          alookup hh r.2.1.handle_mapping = some id)) ∧
    (∀ (assets : Nat → List Nat) (frames : List TreeUpdate) (ns : Nodes)
        (atlas : NodeAtlas) (q : List AtlasCmd) (w : Nodes × NodeAtlas × List AtlasCmd)
        (id : Nat) (nd : NodeData),
      alookup id ns.inactive_nodes = some nd →
      alookup id ns.loading_nodes = none →
      (∀ tu' ∈ frames, id ∉ tu'.nodes_to_activate ∧ id ∉ tu'.nodes_to_deactivate) →
      runFrames assets frames ns atlas q = .ok w →
      alookup id w.1.inactive_nodes = some nd ∧ alookup id w.1.loading_nodes = none) ∧
    (∀ (assets : Nat → List Nat) (frames : List TreeUpdate) (ns : Nodes)
        (atlas : NodeAtlas) (q : List AtlasCmd) (w : Nodes × NodeAtlas × List AtlasCmd)
        (tuk : TreeUpdate) (atlasK : NodeAtlas) (qK : List AtlasCmd)
        (rK : TreeUpdate × Nodes × NodeAtlas × List AtlasCmd) (id : Nat) (nd : NodeData),
      alookup id ns.inactive_nodes = some nd →
      alookup id ns.loading_nodes = none →
      (∀ tu' ∈ frames, id ∉ tu'.nodes_to_activate ∧ id ∉ tu'.nodes_to_deactivate) →
      runFrames assets frames ns atlas q = .ok w →
      tuk.nodes_to_activate.Nodup → tuk.nodes_to_deactivate.Nodup →
      (akeys w.1.load_statuses).Nodup →
      (∀ p ∈ w.1.inactive_nodes, (Prod.snd p).id = p.1) →
      id ∈ tuk.nodes_to_activate → id ∉ tuk.nodes_to_deactivate →
      alookup id w.1.load_statuses = none →
      update_nodes assets tuk w.1 atlasK qK = .ok rK →
      id ∈ rK.1.activated_nodes ∧ id ∈ akeys rK.2.1.active_nodes ∧
        id ∉ akeys rK.2.1.loading_nodes) := by
  refine ⟨?_, ?_, ?_, ?_⟩
  · intro assets tu ns atlas q r id nd hA hD hsts hkmI hmem hhit hnl hns hnd hok
    exact cache_hit_result hA hD hsts hkmI hmem hhit hnl hns hnd hok
  · intro assets tu ns atlas q r id hA hsts hmem hmiss hok
    obtain ⟨hload, hstatus⟩ := load_path_result hA hsts hmem hmiss hok
    refine ⟨hload, hstatus, ?_⟩
    intro hh hhmem hother
    obtain ⟨s, d2, hsw, hdd, hr⟩ := update_nodes_ok_elim hok
    have hmissK : id ∉ akeys ns.inactive_nodes := fun hc => by
      have h1 := alookup_isSome_iff_mem_akeys.mpr hc
      rw [hmiss] at h1
      exact Bool.noConfusion h1
    have hap := admitPending_untouched s.2.2 ⟨[], [], []⟩ d2.1 d2.2.1 d2.2.2
    have hmp : r.2.1.handle_mapping =
        (drainActivate assets tu.nodes_to_activate ns []).1.handle_mapping := by
      rw [hr, hap.2.2.2.1, (drainDeactivate_untouched hdd).2.2]
    rw [hmp]
    exact drainActivate_alookup_mapping_hit assets hA hmem ns [] hmissK hhmem hother
  · intro assets frames ns atlas q w id nd hhit hnl hall hok
    have h := runFrames_preserves_cached hall hok
    exact ⟨by rw [h.1, hhit], h.2 hnl⟩
  · intro assets frames ns atlas q w tuk atlasK qK rK id nd hhit hnl hall hrun
      hA hD hsts hkmI hmem hnd hns hok
    have h := runFrames_preserves_cached hall hrun
    have hhitw : alookup id w.1.inactive_nodes = some nd := by rw [h.1, hhit]
    have hnlw : alookup id w.1.loading_nodes = none := h.2 hnl
    have hres := cache_hit_result hA hD hsts hkmI hmem hhitw hnlw hns hnd hok
    exact ⟨hres.1, hres.2.1, hres.2.2.1⟩

/-- Witness for C5 (part 4 at concrete input): node 8 sits in the inactive
cache, one empty frame passes, then a frame requests it; it is reactivated
from the cache without entering `loading_nodes`. -/
theorem C5_drain_dichotomy_cache_reuse_witness :
    8 ∈ ([8] : List Nat) ∧
    8 ∈ akeys ([(8, (⟨8, [108], some 5⟩ : NodeData)), (9, ⟨9, [109], some 0⟩)] :
      List (Nat × NodeData)) ∧
    8 ∉ akeys ([] : List (Nat × NodeData)) :=
  C5_drain_dichotomy_cache_reuse.2.2.2 (fun i => [100 + i]) [⟨[], [], []⟩]
    ⟨[], [], [], [(8, ⟨8, [108], none⟩)], [(9, ⟨9, [109], some 0⟩)]⟩ ⟨[5]⟩ []
    (⟨[], [], [], [(8, ⟨8, [108], none⟩)], [(9, ⟨9, [109], some 0⟩)]⟩, ⟨[5]⟩, [])
    ⟨[], [8], []⟩ ⟨[5]⟩ []
    (⟨[8], [], []⟩,
     ⟨[], [], [], [], [(8, ⟨8, [108], some 5⟩), (9, ⟨9, [109], some 0⟩)]⟩,
     ⟨[]⟩, [AtlasCmd.assign 5 8])
    8 ⟨8, [108], none⟩
    rfl rfl (by decide) rfl (by decide) (by decide) (by decide) (by decide)
    (by decide) (by decide) rfl rfl

/-- Shared helper: one successful `update_nodes` frame driven by a
traversal-shaped tree update preserves the well-formedness invariant. -/
theorem wf_frame {assets : Nat → List Nat} {tu : TreeUpdate} {ns : Nodes}
    {atlas : NodeAtlas} {q : List AtlasCmd}
    {r : TreeUpdate × Nodes × NodeAtlas × List AtlasCmd}
    (hwf : WfState ns) (hv : ValidUpdate tu ns)
    (hok : update_nodes assets tu ns atlas q = .ok r) :
    WfState r.2.1 := by
  obtain ⟨⟨hnM, hnS, hnL, hnI, hnA⟩, ⟨hdLI, hdLA, hdIA⟩, ⟨hsSL, hsLS⟩, ⟨hkL, hkI, hkA⟩⟩ := hwf
  obtain ⟨hvA, hvD, hvAact, hvDact⟩ := hv
  obtain ⟨s, d2, hsw, hdd, hr⟩ := update_nodes_ok_elim hok
  have hmidwf : NodupKeys (drainActivate assets tu.nodes_to_activate ns []).1 :=
    drainActivate_nodup assets _ ns [] ⟨hnM, hnS, hnL, hnI, hnA⟩
  have hmidkm : KeysMatch (drainActivate assets tu.nodes_to_activate ns []).1 :=
    drainActivate_keysmatch assets _ ns [] ⟨hkL, hkI, hkA⟩
  have hmidn : (akeys (drainActivate assets tu.nodes_to_activate ns []).1.load_statuses).Nodup :=
    hmidwf.2.1
  have hact_mid : (drainActivate assets tu.nodes_to_activate ns []).1.active_nodes =
      ns.active_nodes := drainActivate_active assets _ ns []
  have hap := admitPending_untouched s.2.2 ⟨[], [], []⟩ d2.1 d2.2.1 d2.2.2
  have hddu := drainDeactivate_untouched hdd
  have hfL : r.2.1.loading_nodes = s.2.1 := by rw [hr, hap.1, hddu.1]
  have hfS : r.2.1.load_statuses = s.1 := by rw [hr, hap.2.2.1, hddu.2.1]
  have hfM : r.2.1.handle_mapping =
      (drainActivate assets tu.nodes_to_activate ns []).1.handle_mapping := by
    rw [hr, hap.2.2.2.1, hddu.2.2]
  have hfI : r.2.1.inactive_nodes = d2.1.inactive_nodes := by rw [hr, hap.2.1]
  -- membership characterizations
  have hMloading : ∀ j,
      j ∈ akeys (drainActivate assets tu.nodes_to_activate ns []).1.loading_nodes ↔
      ((j ∈ tu.nodes_to_activate ∧ j ∉ akeys ns.inactive_nodes) ∨
        j ∈ akeys ns.loading_nodes) := by
    intro j
    rw [← alookup_isSome_iff_mem_akeys, drainActivate_alookup_loading assets hvA ns [] j]
    by_cases hc : j ∈ tu.nodes_to_activate ∧ j ∉ akeys ns.inactive_nodes
    · simp [hc]
    · simp [hc, alookup_isSome_iff_mem_akeys]
  have hMsts : ∀ j,
      j ∈ akeys (drainActivate assets tu.nodes_to_activate ns []).1.load_statuses ↔
      ((j ∈ tu.nodes_to_activate ∧ j ∉ akeys ns.inactive_nodes) ∨
        j ∈ akeys ns.load_statuses) := by
    intro j
    rw [← alookup_isSome_iff_mem_akeys, drainActivate_alookup_statuses assets hvA ns [] j]
    by_cases hc : j ∈ tu.nodes_to_activate ∧ j ∉ akeys ns.inactive_nodes
    · simp [hc]
    · simp [hc, alookup_isSome_iff_mem_akeys]
  have hMinactive : ∀ j,
      j ∈ akeys (drainActivate assets tu.nodes_to_activate ns []).1.inactive_nodes ↔
      (j ∉ tu.nodes_to_activate ∧ j ∈ akeys ns.inactive_nodes) := by
    intro j
    rw [← alookup_isSome_iff_mem_akeys, drainActivate_alookup_inactive assets ns [] j]
    by_cases hc : j ∈ tu.nodes_to_activate
    · simp [hc]
    · simp [hc, alookup_isSome_iff_mem_akeys]
  have hSyncMid : ∀ j,
      j ∈ akeys (drainActivate assets tu.nodes_to_activate ns []).1.load_statuses ↔
      j ∈ akeys (drainActivate assets tu.nodes_to_activate ns []).1.loading_nodes := by
    intro j
    rw [hMsts j, hMloading j]
    constructor
    · rintro (h | h)
      · exact Or.inl h
      · exact Or.inr (hsSL j h)
    · rintro (h | h)
      · exact Or.inl h
      · exact Or.inr (hsLS j h)
  have hPloading : ∀ j, j ∈ akeys r.2.1.loading_nodes ↔
      (((alookup j (drainActivate assets tu.nodes_to_activate ns []).1.load_statuses).any
          fun st => st.finished) = false ∧
        j ∈ akeys (drainActivate assets tu.nodes_to_activate ns []).1.loading_nodes) := by
    intro j
    rw [hfL, ← alookup_isSome_iff_mem_akeys, sweepStatuses_alookup_loading hmidn hsw j]
    by_cases hf : ((alookup j (drainActivate assets tu.nodes_to_activate ns []).1.load_statuses).any
        fun st => st.finished) = true
    · simp [hf]
    · simp only [Bool.not_eq_true] at hf
      simp [hf, alookup_isSome_iff_mem_akeys]
  have hPsts : ∀ j, j ∈ akeys r.2.1.load_statuses ↔
      (((alookup j (drainActivate assets tu.nodes_to_activate ns []).1.load_statuses).any
          fun st => st.finished) = false ∧
        j ∈ akeys (drainActivate assets tu.nodes_to_activate ns []).1.load_statuses) := by
    intro j
    rw [hfS, sweepStatuses_statuses hsw]
    constructor
    · intro hm
      rcases mem_akeys_filter.mp hm with ⟨v, hv, hp⟩
      have hvf : v.finished = false := by simpa using hp
      have hla : alookup j
          (drainActivate assets tu.nodes_to_activate ns []).1.load_statuses = some v :=
        alookup_of_mem_nodup hmidn hv
      refine ⟨?_, List.mem_map.mpr ⟨(j, v), hv, rfl⟩⟩
      rw [hla]
      simp [hvf]
    · rintro ⟨hfin, hmem⟩
      have h1 := alookup_isSome_iff_mem_akeys.mpr hmem
      rcases Option.isSome_iff_exists.mp h1 with ⟨v, hv⟩
      have hvf : v.finished = false := by
        rw [hv] at hfin
        simpa using hfin
      exact mem_akeys_filter.mpr ⟨v, alookup_some_mem hv, by simp [hvf]⟩
  have hDact : ∀ j, j ∈ akeys d2.1.active_nodes ↔
      (j ∉ tu.nodes_to_deactivate ∧ j ∈ akeys ns.active_nodes) := by
    intro j
    rw [← alookup_isSome_iff_mem_akeys, drainDeactivate_alookup_active hvD hdd j]
    simp only []
    rw [hact_mid]
    by_cases hc : j ∈ tu.nodes_to_deactivate
    · simp [hc]
    · simp [hc, alookup_isSome_iff_mem_akeys]
  have hPinactive : ∀ j, j ∈ akeys r.2.1.inactive_nodes ↔
      ((j ∈ tu.nodes_to_deactivate ∧ j ∈ akeys ns.active_nodes) ∨
        (j ∉ tu.nodes_to_deactivate ∧
          j ∈ akeys (drainActivate assets tu.nodes_to_activate ns []).1.inactive_nodes)) := by
    intro j
    rw [hfI, ← alookup_isSome_iff_mem_akeys, drainDeactivate_alookup_inactive hvD hdd j]
    simp only []
    rw [hact_mid]
    by_cases hc : j ∈ tu.nodes_to_deactivate
    · cases halook : alookup j ns.active_nodes with
      | none =>
        rw [if_pos hc]
        simp only [Option.map_none']
        constructor
        · intro h1
          exact absurd h1 (by simp)
        · rintro (⟨_, h2⟩ | ⟨h2, _⟩)
          · have h3 := alookup_isSome_iff_mem_akeys.mpr h2
            rw [halook] at h3
            exact Bool.noConfusion h3
          · exact absurd hc h2
      | some nd =>
        rw [if_pos hc]
        simp only [Option.map_some']
        constructor
        · intro _
          exact Or.inl ⟨hc, alookup_isSome_iff_mem_akeys.mp (by rw [halook]; rfl)⟩
        · intro _
          rfl
    · simp [hc, alookup_isSome_iff_mem_akeys]
  have hPactive : ∀ j, j ∈ akeys r.2.1.active_nodes ↔
      (j ∈ s.2.2.map NodeData.id ∨
        (j ∉ tu.nodes_to_deactivate ∧ j ∈ akeys ns.active_nodes)) := by
    intro j
    rw [hr]
    rw [admitPending_mem_active s.2.2 ⟨[], [], []⟩ d2.1 d2.2.1 d2.2.2 j]
    rw [hDact j]
  have hPend : ∀ j, j ∈ s.2.2.map NodeData.id →
      ((j ∈ tu.nodes_to_activate ∧ j ∈ akeys ns.inactive_nodes) ∨
        (((alookup j (drainActivate assets tu.nodes_to_activate ns []).1.load_statuses).any
            fun st => st.finished) = true ∧
          j ∈ akeys (drainActivate assets tu.nodes_to_activate ns []).1.loading_nodes)) := by
    intro j hj
    rcases List.mem_map.mp hj with ⟨n, hn, hnid⟩
    rcases sweepStatuses_pending_src hsw n hn with hp | ⟨pr, hpr, hfin, hla⟩
    · rcases drainActivate_pending_src assets ns [] hkI n hp with hemp | ⟨hnA2, hla⟩
      · exact absurd hemp (List.not_mem_nil _)
      · rw [hnid] at hnA2 hla
        exact Or.inl ⟨hnA2, alookup_isSome_iff_mem_akeys.mp (by rw [hla]; rfl)⟩
    · have hjpr : j = pr.1 := by
        rw [← hnid]
        exact hmidkm.1 (pr.1, n) (alookup_some_mem hla)
      have hlook : alookup pr.1
          (drainActivate assets tu.nodes_to_activate ns []).1.load_statuses = some pr.2 :=
        alookup_of_mem_nodup hmidn (by
          rw [show ((pr.1, pr.2) : Nat × LoadStatus) = pr from rfl]
          exact hpr)
      refine Or.inr ⟨?_, ?_⟩
      · rw [hjpr, hlook]
        simpa using hfin
      · rw [hjpr]
        exact alookup_isSome_iff_mem_akeys.mp (by rw [hla]; rfl)
  have hs1n : (akeys s.1).Nodup := by
    rw [sweepStatuses_statuses hsw]
    exact nodup_akeys_filter _ hmidn
  -- assemble the four invariant components
  refine ⟨⟨?_, ?_, ?_, ?_, ?_⟩, ⟨?_, ?_, ?_⟩, ⟨?_, ?_⟩, ⟨?_, ?_, ?_⟩⟩
  · rw [hfM]
    exact hmidwf.1
  · rw [hfS, sweepStatuses_statuses hsw]
    exact nodup_akeys_filter _ hmidn
  · rw [hfL]
    exact sweepStatuses_loading_nodup hsw hmidwf.2.2.1
  · rw [hfI]
    exact (drainDeactivate_nodup hdd
      ⟨hmidwf.1, hs1n,
        sweepStatuses_loading_nodup hsw hmidwf.2.2.1, hmidwf.2.2.2.1, hmidwf.2.2.2.2⟩).2.2.2.1
  · rw [hr]
    exact admitPending_active_nodup s.2.2 ⟨[], [], []⟩ d2.1 d2.2.1 d2.2.2
      (drainDeactivate_nodup hdd
        ⟨hmidwf.1, hs1n,
          sweepStatuses_loading_nodup hsw hmidwf.2.2.1, hmidwf.2.2.2.1,
          hmidwf.2.2.2.2⟩).2.2.2.2
  · -- loading ∩ inactive = ∅
    intro j hjl hji
    rcases (hPloading j).mp hjl with ⟨hfin, hml⟩
    rcases (hPinactive j).mp hji with ⟨hjD, hjact⟩ | ⟨hjD, hmi⟩
    · rcases (hMloading j).mp hml with ⟨hjA, _⟩ | hjL
      · exact hvAact j hjA hjact
      · exact hdLA j hjL hjact
    · rcases (hMinactive j).mp hmi with ⟨hjA, hjI⟩
      rcases (hMloading j).mp hml with ⟨hjA2, hjnI⟩ | hjL
      · exact hjnI hjI
      · exact hdLI j hjL hjI
  · -- loading ∩ active = ∅
    intro j hjl hja
    rcases (hPloading j).mp hjl with ⟨hfin, hml⟩
    rcases (hPactive j).mp hja with hjp | ⟨hjD, hjact⟩
    · rcases hPend j hjp with ⟨hjA, hjI⟩ | ⟨hfin2, _⟩
      · rcases (hMloading j).mp hml with ⟨_, hjnI⟩ | hjL
        · exact hjnI hjI
        · exact hdLI j hjL hjI
      · rw [hfin] at hfin2
        exact Bool.noConfusion hfin2
    · rcases (hMloading j).mp hml with ⟨hjA, _⟩ | hjL
      · exact hvAact j hjA hjact
      · exact hdLA j hjL hjact
  · -- inactive ∩ active = ∅
    intro j hji hja
    rcases (hPactive j).mp hja with hjp | ⟨hjD, hjact⟩
    · rcases hPend j hjp with ⟨hjA, hjI⟩ | ⟨hfin2, hml⟩
      · rcases (hPinactive j).mp hji with ⟨hjD, hjact⟩ | ⟨hjD, hmi⟩
        · exact hvAact j hjA hjact
        · exact ((hMinactive j).mp hmi).1 hjA
      · rcases (hMloading j).mp hml with ⟨hjA, hjnI⟩ | hjL
        · rcases (hPinactive j).mp hji with ⟨hjD, hjact⟩ | ⟨hjD, hmi⟩
          · exact hvAact j hjA hjact
          · exact ((hMinactive j).mp hmi).1 hjA
        · rcases (hPinactive j).mp hji with ⟨hjD, hjact⟩ | ⟨hjD, hmi⟩
          · exact hdLA j hjL hjact
          · exact hdLI j hjL ((hMinactive j).mp hmi).2
    · rcases (hPinactive j).mp hji with ⟨hjD2, _⟩ | ⟨hjD2, hmi⟩
      · exact hjD hjD2
      · exact hdIA j ((hMinactive j).mp hmi).2 hjact
  · -- statuses keys ⊆ loading keys
    intro j hj
    rcases (hPsts j).mp hj with ⟨hfin, hmem⟩
    exact (hPloading j).mpr ⟨hfin, (hSyncMid j).mp hmem⟩
  · -- loading keys ⊆ statuses keys
    intro j hj
    rcases (hPloading j).mp hj with ⟨hfin, hmem⟩
    exact (hPsts j).mpr ⟨hfin, (hSyncMid j).mpr hmem⟩
  · -- keys match: loading
    rw [hfL]
    intro p hp
    exact hmidkm.1 p (sweepStatuses_loading_sub hsw p hp)
  · -- keys match: inactive
    rw [hfI]
    refine (drainDeactivate_keysmatch hdd ⟨?_, hmidkm.2.1, hmidkm.2.2⟩).2.1
    intro p hp
    exact hmidkm.1 p (sweepStatuses_loading_sub hsw p hp)
  · -- keys match: active
    rw [hr]
    refine admitPending_active_keysmatch s.2.2 ⟨[], [], []⟩ d2.1 d2.2.1 d2.2.2 ?_
    exact (drainDeactivate_keysmatch hdd ⟨fun p hp =>
      hmidkm.1 p (sweepStatuses_loading_sub hsw p hp), hmidkm.2.1, hmidkm.2.2⟩).2.2

/-- Shared helper: routing one asset-ready notification preserves the
well-formedness invariant of a terrain. -/
theorem wf_asset {ns ns' : Nodes} {h : Nat}
    (hwf : WfState ns) (happ : applyCreated h [ns] = .ok [ns']) :
    WfState ns' := by
  obtain ⟨⟨hnM, hnS, hnL, hnI, hnA⟩, hdisj, ⟨hsSL, hsLS⟩, hkm⟩ := hwf
  simp only [applyCreated] at happ
  cases hm : alookup h ns.handle_mapping with
  | some id =>
    rw [hm] at happ
    simp only [] at happ
    cases hst : alookup id ns.load_statuses with
    | some st =>
      rw [hst] at happ
      simp only [] at happ
      injection happ with h1
      injection h1 with h2
      rw [← h2]
      have hidK : id ∈ akeys ns.load_statuses :=
        alookup_isSome_iff_mem_akeys.mp (by rw [hst]; rfl)
      refine ⟨⟨nodup_akeys_aremove h hnM, nodup_akeys_ainsert _ _ hnS, hnL, hnI, hnA⟩,
        hdisj, ⟨?_, ?_⟩, hkm⟩
      · intro j hj
        rcases (mem_akeys_ainsert _ _).mp hj with hj1 | hj2
        · rw [hj1]
          exact hsSL id hidK
        · exact hsSL j hj2
      · intro j hj
        exact (mem_akeys_ainsert _ _).mpr (Or.inr (hsLS j hj))
    | none =>
      rw [hst] at happ
      exact Except.noConfusion happ
  | none =>
    rw [hm] at happ
    simp only [applyCreated, Except.map] at happ
    injection happ with h1
    injection h1 with h2
    rw [← h2]
    exact ⟨⟨hnM, hnS, hnL, hnI, hnA⟩, hdisj, ⟨hsSL, hsLS⟩, hkm⟩

/-- Shared helper: every state the system can reach is well-formed. -/
theorem wf_reachable {assets : Nat → List Nat} {ns : Nodes} {atlas : NodeAtlas}
    (h : Reachable assets ns atlas) : WfState ns := by
  induction h with
  | init freeSlots => exact (by decide)
  | frame hre hv hok ih => exact wf_frame ih hv hok
  | asset hre happ ih => exact wf_asset ih happ

/-- C3: in every state the system can reach (frames driven by
traversal-shaped tree updates plus asset-ready routing), the key sets of
`loading_nodes`, `inactive_nodes` and `active_nodes` are pairwise disjoint:
each `NodeData` is owned by exactly one of the three collections. -/
theorem C3_ownership_disjoint {assets : Nat → List Nat} {ns : Nodes} {atlas : NodeAtlas}
    (h : Reachable assets ns atlas) :
    (∀ id ∈ akeys ns.loading_nodes, id ∉ akeys ns.inactive_nodes) ∧
    (∀ id ∈ akeys ns.loading_nodes, id ∉ akeys ns.active_nodes) ∧
    (∀ id ∈ akeys ns.inactive_nodes, id ∉ akeys ns.active_nodes) :=
  (wf_reachable h).2.1

/-- Witness for C3: a four-step run (load two nodes, finish both, admit
both, deactivate node 1) reaches a state with node 1 inactive and node 2
active; disjointness puts 1 outside the active key set. -/
theorem C3_ownership_disjoint_witness :
    1 ∉ akeys ([(2, (⟨2, [102], some 0⟩ : NodeData))] : List (Nat × NodeData)) := by
  have h0 : Reachable (fun i => [100 + i]) ⟨[], [], [], [], []⟩ ⟨[0]⟩ :=
    Reachable.init [0]
  have h1 : Reachable (fun i => [100 + i])
      ⟨[(102, 2), (101, 1)], [(2, ⟨false⟩), (1, ⟨false⟩)],
       [(2, ⟨2, [102], none⟩), (1, ⟨1, [101], none⟩)], [], []⟩ ⟨[0]⟩ :=
    @Reachable.frame (fun i => [100 + i]) ⟨[], [], [], [], []⟩ ⟨[0]⟩
      ⟨[], [1, 2], []⟩ []
      (⟨[], [], []⟩,
       ⟨[(102, 2), (101, 1)], [(2, ⟨false⟩), (1, ⟨false⟩)],
        [(2, ⟨2, [102], none⟩), (1, ⟨1, [101], none⟩)], [], []⟩, ⟨[0]⟩, [])
      h0 (by decide) rfl
  have h2 : Reachable (fun i => [100 + i])
      ⟨[(102, 2)], [(1, ⟨true⟩), (2, ⟨false⟩)],
       [(2, ⟨2, [102], none⟩), (1, ⟨1, [101], none⟩)], [], []⟩ ⟨[0]⟩ :=
    @Reachable.asset (fun i => [100 + i])
      ⟨[(102, 2), (101, 1)], [(2, ⟨false⟩), (1, ⟨false⟩)],
       [(2, ⟨2, [102], none⟩), (1, ⟨1, [101], none⟩)], [], []⟩
      ⟨[(102, 2)], [(1, ⟨true⟩), (2, ⟨false⟩)],
       [(2, ⟨2, [102], none⟩), (1, ⟨1, [101], none⟩)], [], []⟩
      ⟨[0]⟩ 101 h1 rfl
  have h3 : Reachable (fun i => [100 + i])
      ⟨[], [(2, ⟨true⟩), (1, ⟨true⟩)],
       [(2, ⟨2, [102], none⟩), (1, ⟨1, [101], none⟩)], [], []⟩ ⟨[0]⟩ :=
    @Reachable.asset (fun i => [100 + i])
      ⟨[(102, 2)], [(1, ⟨true⟩), (2, ⟨false⟩)],
       [(2, ⟨2, [102], none⟩), (1, ⟨1, [101], none⟩)], [], []⟩
      ⟨[], [(2, ⟨true⟩), (1, ⟨true⟩)],
       [(2, ⟨2, [102], none⟩), (1, ⟨1, [101], none⟩)], [], []⟩
      ⟨[0]⟩ 102 h2 rfl
  have h4 : Reachable (fun i => [100 + i])
      ⟨[], [], [], [], [(1, ⟨1, [101], none⟩), (2, ⟨2, [102], some 0⟩)]⟩ ⟨[]⟩ :=
    @Reachable.frame (fun i => [100 + i])
      ⟨[], [(2, ⟨true⟩), (1, ⟨true⟩)],
       [(2, ⟨2, [102], none⟩), (1, ⟨1, [101], none⟩)], [], []⟩ ⟨[0]⟩
      ⟨[], [], []⟩ []
      (⟨[1, 2], [], []⟩,
       ⟨[], [], [], [], [(1, ⟨1, [101], none⟩), (2, ⟨2, [102], some 0⟩)]⟩,
       ⟨[]⟩, [AtlasCmd.assign 0 2])
      h3 (by decide) rfl
  have h5 : Reachable (fun i => [100 + i])
      ⟨[], [], [], [(1, ⟨1, [101], none⟩)], [(2, ⟨2, [102], some 0⟩)]⟩ ⟨[]⟩ :=
    @Reachable.frame (fun i => [100 + i])
      ⟨[], [], [], [], [(1, ⟨1, [101], none⟩), (2, ⟨2, [102], some 0⟩)]⟩ ⟨[]⟩
      ⟨[], [], [1]⟩ []
      (⟨[], [], []⟩,
       ⟨[], [], [], [(1, ⟨1, [101], none⟩)], [(2, ⟨2, [102], some 0⟩)]⟩,
       ⟨[]⟩, [])
      h4 (by decide) rfl
  exact (C3_ownership_disjoint h5).2.2 1 (by decide)
